import Mathlib

/-!
Verification of the inventory-privacy circuit core.

This file shallowly embeds the Rust sources of the repository
(crates/circuits: anemoi, smt, range_check, signal, smt_commitment,
state_transition) into Lean 4 and proves properties of the embedding.

The base field is the BN254 scalar field, a prime field of order
21888242871839275222246405745257275088548364400416034343698204186575808495617.
All circuit values are elements of this field; u64 inputs are embedded as
naturals and cast into the field exactly where the Rust code applies Fr::from.
-/

set_option maxRecDepth 8000
set_option exponentiation.threshold 400

/-- Order of the BN254 scalar field, the modulus used by ark_bn254::Fr. -/
def bn254Order : ℕ :=
  21888242871839275222246405745257275088548364400416034343698204186575808495617

/-- The base field of every circuit in the repository. -/
abbrev F : Type := ZMod bn254Order

/-- Fuelled binary modular exponentiation on naturals; mirrors the
square-and-multiply strategy that ark_ff uses for Fr::pow. -/
def powModAux : ℕ → ℕ → ℕ → ℕ → ℕ
  | 0, _, _, p => 1 % p
  | fuel+1, a, k, p =>
    if k = 0 then 1 % p
    else if k % 2 = 1 then a % p * powModAux fuel (a * a % p) (k / 2) p % p
    else powModAux fuel (a * a % p) (k / 2) p

/-- Modular exponentiation, valid for exponents below 2 to the 300. -/
def powMod (a k p : ℕ) : ℕ := powModAux 300 a k p

/-- Fuelled binary exponentiation inside the field; the executable form of
Monoid.npow used so that concrete hash values reduce in the kernel. -/
def fastPowAux : ℕ → F → ℕ → F
  | 0, _, _ => 1
  | fuel+1, x, n =>
    if n = 0 then 1
    else if n % 2 = 1 then x * fastPowAux fuel (x * x) (n / 2)
    else fastPowAux fuel (x * x) (n / 2)

/-- The inverse of 5 modulo bn254Order - 1, the exponent computed at runtime
by compute_inv_alpha in anemoi/constants.rs via the extended Euclidean
algorithm (the unique y in range with 5 * y congruent to 1 mod p - 1). -/
def INV_ALPHA : ℕ :=
  17510594297471420177797124596205820070838691520332827474958563349260646796493

/-- exp_inv_alpha from anemoi/constants.rs: raise x to INV_ALPHA,
computing the fifth root of x. -/
def exp_inv_alpha (x : F) : F := fastPowAux 300 x INV_ALPHA

/-- exp_alpha from anemoi/constants.rs: x squared, squared again, times x. -/
def exp_alpha (x : F) : F :=
  let x2 := x * x
  let x4 := x2 * x2
  x4 * x

/-! ### Poseidon hash (commitment.rs poseidon_config + arkworks PoseidonSponge)

The configuration generated by commitment.rs is fully deterministic:
rate 2, capacity 1 (state width 3), 8 full rounds, 57 partial rounds,
S-box exponent 5, round constant for round r and cell i equal to
((3r + i + 1) * 0x9e3779b97f4a7c15 mod 2^64) as a field element, and the
circulant MDS matrix with 2 on the diagonal and 1 elsewhere.  The sponge
state is layered capacity-first: index 0 is the capacity cell, indices 1
and 2 are the rate cells.  Absorbing writes into the rate cells, permuting
between chunks of 2; squeezing permutes once and reads rate cell 0. -/

/-- Round constant value as a natural (u64 wrapping multiply from
generate_poseidon_parameters in commitment.rs). -/
def arkConstN (r i : ℕ) : ℕ := ((3 * r + i + 1) * 0x9e3779b97f4a7c15) % 2 ^ 64

/-- Round constant as a field element. -/
def arkConst (r i : ℕ) : F := (arkConstN r i : ℕ)

/-- Poseidon S-box: fifth power. -/
def pSbox (x : F) : F := x * x * (x * x) * x

/-- Add round constants of round r to the three state cells. -/
def pArk (r : ℕ) (s : F × F × F) : F × F × F :=
  (s.1 + arkConst r 0, s.2.1 + arkConst r 1, s.2.2 + arkConst r 2)

/-- Multiply the state by the circulant MDS matrix [[2,1,1],[1,2,1],[1,1,2]]. -/
def pMds (s : F × F × F) : F × F × F :=
  (2 * s.1 + s.2.1 + s.2.2, s.1 + 2 * s.2.1 + s.2.2, s.1 + s.2.1 + 2 * s.2.2)

/-- One full round: constants, S-box on every cell, MDS. -/
def pFullRound (r : ℕ) (s : F × F × F) : F × F × F :=
  pMds (let t := pArk r s; (pSbox t.1, pSbox t.2.1, pSbox t.2.2))

/-- One partial round: constants, S-box on cell 0 only, MDS. -/
def pPartialRound (r : ℕ) (s : F × F × F) : F × F × F :=
  pMds (let t := pArk r s; (pSbox t.1, t.2.1, t.2.2))

/-- The full Poseidon permutation: 4 full rounds, 57 partial rounds,
4 full rounds, with consecutive round-constant indices. -/
def pPermute (s : F × F × F) : F × F × F :=
  let s1 := (List.range 4).foldl (fun st i => pFullRound i st) s
  let s2 := (List.range 57).foldl (fun st i => pPartialRound (4 + i) st) s1
  (List.range 4).foldl (fun st i => pFullRound (61 + i) st) s2

/-- Sponge absorption of a list of field elements into the width-3 state,
rate 2: add chunks of two into the rate cells, permuting between chunks;
a trailing single element only fills the first rate cell.  Mirrors
absorb_internal of arkworks PoseidonSponge started on a fresh sponge. -/
def pAbsorb : F × F × F → List F → F × F × F
  | s, [] => s
  | s, [a] => (s.1, s.2.1 + a, s.2.2)
  | s, a :: b :: rest =>
    match rest with
    | [] => (s.1, s.2.1 + a, s.2.2 + b)
    | _ => pAbsorb (pPermute (s.1, s.2.1 + a, s.2.2 + b)) rest

/-- Absorb a list into a fresh sponge, squeeze one element: the
PoseidonSponge::new / absorb / squeeze_field_elements(1) pattern that every
Poseidon call site in the repository uses. -/
def poseidonSponge (xs : List F) : F :=
  (pPermute (pAbsorb (0, 0, 0) xs)).2.1

/-- Two-to-one Poseidon hash: hash_nodes / hash_two / hash_leaf all absorb
exactly two field elements and squeeze one. -/
def pH (a b : F) : F := poseidonSponge [a, b]

/-- create_smt_commitment from smt_commitment.rs: absorb
[inventory_root, current_volume, blinding] and squeeze one element. -/
def create_smt_commitment (inventory_root : F) (current_volume : ℕ) (blinding : F) : F :=
  poseidonSponge [inventory_root, (current_volume : F), blinding]

/-! Natural-number evaluators for the Poseidon permutation, with explicit
reduction mod bn254Order at every step, so that concrete hash values can be
computed by kernel reduction (the ZMod forms are related by cast lemmas). -/

/-- S-box on naturals mod bn254Order. -/
def pSboxN (x : ℕ) : ℕ :=
  x * x % bn254Order * (x * x % bn254Order) % bn254Order * x % bn254Order

/-- Full round on natural triples. -/
def pFullRoundN (r : ℕ) : ℕ × ℕ × ℕ → ℕ × ℕ × ℕ
  | (a, b, c) =>
    let a1 := pSboxN ((a + arkConstN r 0) % bn254Order)
    let b1 := pSboxN ((b + arkConstN r 1) % bn254Order)
    let c1 := pSboxN ((c + arkConstN r 2) % bn254Order)
    ((2 * a1 + b1 + c1) % bn254Order, (a1 + 2 * b1 + c1) % bn254Order,
      (a1 + b1 + 2 * c1) % bn254Order)

/-- Partial round on natural triples. -/
def pPartialRoundN (r : ℕ) : ℕ × ℕ × ℕ → ℕ × ℕ × ℕ
  | (a, b, c) =>
    let a1 := pSboxN ((a + arkConstN r 0) % bn254Order)
    let b1 := (b + arkConstN r 1) % bn254Order
    let c1 := (c + arkConstN r 2) % bn254Order
    ((2 * a1 + b1 + c1) % bn254Order, (a1 + 2 * b1 + c1) % bn254Order,
      (a1 + b1 + 2 * c1) % bn254Order)

/-- Poseidon permutation on natural triples. -/
def pPermuteN (s : ℕ × ℕ × ℕ) : ℕ × ℕ × ℕ :=
  let s1 := (List.range 4).foldl (fun st i => pFullRoundN i st) s
  let s2 := (List.range 57).foldl (fun st i => pPartialRoundN (4 + i) st) s1
  (List.range 4).foldl (fun st i => pFullRoundN (61 + i) st) s2

/-- Two-to-one Poseidon hash on naturals. -/
def pHN (a b : ℕ) : ℕ := (pPermuteN (0, a, b)).2.1

/-- Three-input Poseidon sponge on naturals (commitment evaluator). -/
def pH3N (a b c : ℕ) : ℕ :=
  let s1 := pPermuteN (0, a, b)
  (pPermuteN (s1.1, (s1.2.1 + c) % bn254Order, s1.2.2)).2.1

/-! ### Sparse Merkle tree (smt/tree.rs, smt/proof.rs) -/

/-- Outcome of a Rust call that can panic: either a value or a panic with
the assertion message. -/
inductive PanicOr (α : Type) where
  | panic (msg : String)
  | ok (val : α)
deriving DecidableEq

/-- hash_leaf from tree.rs: Poseidon of (item_id, quantity), both u64
inputs cast into the field. -/
def hash_leaf (item_id quantity : ℕ) : F := pH (item_id : ℕ) (quantity : ℕ)

/-- hash_nodes from tree.rs: Poseidon of the two child hashes. -/
def hash_nodes (left right : F) : F := pH left right

/-- Precomputed default hash of an all-empty subtree of height l
(compute_defaults in tree.rs): the default leaf is hash_leaf 0 0. -/
def defaultHashes : ℕ → F
  | 0 => hash_leaf 0 0
  | l+1 => hash_nodes (defaultHashes l) (defaultHashes l)

/-- The sparse Merkle tree state: depth, sparse node map keyed by
(level, index), and the dense item-id to quantity map. -/
structure SMTree where
  depth : ℕ
  nodes : ℕ → ℕ → Option F
  leaves : ℕ → Option ℕ

/-- SparseMerkleTree::new: empty maps. -/
def SMTree.mkEmpty (d : ℕ) : SMTree :=
  ⟨d, fun _ _ => none, fun _ => none⟩

/-- HashMap::insert on the node map. -/
def insertNode (m : ℕ → ℕ → Option F) (l i : ℕ) (v : F) : ℕ → ℕ → Option F :=
  fun l' i' => if l' = l ∧ i' = i then some v else m l' i'

/-- HashMap::insert on the leaf map. -/
def insertLeaf (m : ℕ → Option ℕ) (id q : ℕ) : ℕ → Option ℕ :=
  fun j => if j = id then some q else m j

/-- HashMap::remove on the leaf map. -/
def removeLeaf (m : ℕ → Option ℕ) (id : ℕ) : ℕ → Option ℕ :=
  fun j => if j = id then none else m j

/-- get_node from tree.rs: stored hash or the level default. -/
def SMTree.getNode (t : SMTree) (level idx : ℕ) : F :=
  (t.nodes level idx).getD (defaultHashes level)

/-- root from tree.rs: node at (depth, 0). -/
def SMTree.root (t : SMTree) : F := t.getNode t.depth 0

/-- get from tree.rs: stored quantity or 0. -/
def SMTree.get (t : SMTree) (item_id : ℕ) : ℕ := (t.leaves item_id).getD 0

/-- recompute_path loop from tree.rs: walk rem levels up from
(level, cur) with running hash h, reading each sibling at index cur xor 1,
storing every parent on the way; returns the final node map and the root. -/
def recomputeLoop : ℕ → ℕ → (ℕ → ℕ → Option F) → ℕ → F → ((ℕ → ℕ → Option F) × F)
  | 0, _, m, _, h => (m, h)
  | rem+1, level, m, cur, h =>
    let sib := (m level (cur ^^^ 1)).getD (defaultHashes level)
    let parentIdx := cur / 2
    let parentHash := if cur % 2 = 0 then hash_nodes h sib else hash_nodes sib h
    recomputeLoop rem (level+1) (insertNode m (level+1) parentIdx parentHash) parentIdx parentHash

/-- update from tree.rs minus its capacity assertion: store or remove the
leaf quantity, store the new leaf hash, recompute the path to the root. -/
def SMTree.updateCore (t : SMTree) (item_id quantity : ℕ) : SMTree × F :=
  let leaves' := if quantity = 0 then removeLeaf t.leaves item_id
                 else insertLeaf t.leaves item_id quantity
  let leafHash := hash_leaf item_id quantity
  let nodes0 := insertNode t.nodes 0 item_id leafHash
  let start := (nodes0 0 item_id).getD (defaultHashes 0)
  let res := recomputeLoop t.depth 0 nodes0 item_id start
  (⟨t.depth, res.1, leaves'⟩, res.2)

/-- update from tree.rs: the capacity assertion panics on item ids at or
beyond 2 to the depth, otherwise the tree mutates and the new root returns. -/
def SMTree.update (t : SMTree) (item_id quantity : ℕ) : PanicOr (SMTree × F) :=
  if item_id < 2 ^ t.depth then .ok (t.updateCore item_id quantity)
  else .panic "item_id exceeds tree capacity"

/-- A Merkle proof: sibling hashes and is-right-child directions from the
leaf level up (smt/proof.rs). -/
structure MerkleProofL where
  path : List F
  indices : List Bool

/-- get_proof loop from tree.rs: collect rem sibling hashes and direction
bits walking up from (level, cur). -/
def getProofLoop : ℕ → (ℕ → ℕ → Option F) → ℕ → ℕ → List F × List Bool
  | 0, _, _, _ => ([], [])
  | rem+1, m, level, cur =>
    let sib := (m level (cur ^^^ 1)).getD (defaultHashes level)
    let rest := getProofLoop rem m (level+1) (cur / 2)
    (sib :: rest.1, decide (cur % 2 = 1) :: rest.2)

/-- get_proof from tree.rs minus its capacity assertion. -/
def SMTree.getProofCore (t : SMTree) (item_id : ℕ) : MerkleProofL :=
  let r := getProofLoop t.depth t.nodes 0 item_id
  ⟨r.1, r.2⟩

/-- get_proof from tree.rs: panics on out-of-capacity ids. -/
def SMTree.get_proof (t : SMTree) (item_id : ℕ) : PanicOr MerkleProofL :=
  if item_id < 2 ^ t.depth then .ok (t.getProofCore item_id)
  else .panic "item_id exceeds tree capacity"

/-- from_items from tree.rs restricted to in-range updates: fold update
over the item list starting from the empty tree.  (A sequence of update
calls on an accumulator; out-of-range ids would panic in the source.) -/
def applySeq (d : ℕ) (s : List (ℕ × ℕ)) : SMTree :=
  s.foldl (fun t p => (t.updateCore p.1 p.2).1) (SMTree.mkEmpty d)

/-- compute_root_from_leaf from smt/proof.rs: fold the proof path over the
running hash, placing the running hash right when the direction bit says the
current node is a right child. -/
def MerkleProofL.computeRootFromLeaf (pr : MerkleProofL) (leafHash : F) : F :=
  (pr.path.zip pr.indices).foldl
    (fun cur p => if p.2 then hash_nodes p.1 cur else hash_nodes cur p.1) leafHash

/-- compute_root from smt/proof.rs: start from hash_leaf(item_id, quantity). -/
def MerkleProofL.compute_root (pr : MerkleProofL) (item_id quantity : ℕ) : F :=
  pr.computeRootFromLeaf (hash_leaf item_id quantity)

/-- verify_proof from tree.rs: recomputed root equals the stored root. -/
def SMTree.verify_proof (t : SMTree) (item_id quantity : ℕ) (pr : MerkleProofL) : Bool :=
  decide (pr.compute_root item_id quantity = t.root)

/-! ### SMT circuit gadgets (smt/gadgets.rs), value-level semantics

Gadget computations are embedded as the functions they compute on the
honestly assigned witness values; enforce_equal emits the equation between
the computed values, which is exactly what cs.is_satisfied checks.  The
Poseidon sponge gadget mirrors the native sponge computation cell for cell
and adds no extra constraint conditions of its own. -/

/-- compute_root_from_path from smt/gadgets.rs: the in-circuit fold over
the proof, selecting hash argument order by the direction boolean. -/
def compute_root_from_path (leafHash : F) (pr : MerkleProofL) : F :=
  (pr.path.zip pr.indices).foldl
    (fun cur p => pH (if p.2 then p.1 else cur) (if p.2 then cur else p.1)) leafHash

/-- verify_and_update from smt/gadgets.rs.  Returns the computed new root
together with the constraint it enforces: the root recomputed from the old
leaf hash (the default leaf hash when old_quantity is zero) must equal
old_root.  All arguments are field elements, as the circuit variables are. -/
def verify_and_update (old_root item_id old_quantity new_quantity : F)
    (pr : MerkleProofL) : F × Prop :=
  let is_insertion := decide (old_quantity = 0)
  let default_leaf_hash := pH 0 0
  let regular_old_hash := pH item_id old_quantity
  let old_leaf_hash := if is_insertion then default_leaf_hash else regular_old_hash
  let computed_old_root := compute_root_from_path old_leaf_hash pr
  let new_leaf_hash := pH item_id new_quantity
  (compute_root_from_path new_leaf_hash pr, computed_old_root = old_root)

/-! ### Anemoi hash (anemoi/constants.rs, native.rs, gadgets.rs) -/

/-- NUM_ROUNDS from anemoi/constants.rs. -/
def NUM_ROUNDS : ℕ := 21

/-- GENERATOR from anemoi/constants.rs: g = 7. -/
def GENERATOR : ℕ := 7

/-- beta from anemoi/constants.rs: 1 / (1 + g). -/
def beta : F := ((1 : F) + (GENERATOR : ℕ))⁻¹

/-- delta from anemoi/constants.rs: g * g as a u64, cast, times beta. -/
def delta : F := ((GENERATOR * GENERATOR : ℕ) : F) * beta

/-- round_constants_c from anemoi/constants.rs: the 21 additive constants applied to the x cell, decimal values of the little-endian 64-bit limb arrays. -/
def ARK_CN : List ℕ :=
  [35,
   6298853781011849641839252869235162911299248901301880484163469631522110845857,
   3513920729564459863520533595760169273955458839290998089037044199894154270437,
   7083132446282228907009980272708031316724941864252002360180650162999257257293,
   13706141892500372292834587652107872129756268938816851125241561059490782932050,
   4686551907432732871926903482534515152960093536896821538788532461297983468445,
   12406020462418453656928942505682611934412958451697607218448962319639917163942,
   5651440513096928142841966692594661585882378172853355273322712975534670063287,
   13370913128917998196118430321111286177234725834005424829207538452160039008200,
   6605773507683414900263305307090190128838869551513491191633285884736471288025,
   14325246122872620845156658602950970108684728153945139118434515933819375770090,
   4856830492529577775597971114249705213097174359640821960341831941555670870779,
   12576302946590977467589669706914938185267787817267567569446882541165429324556,
   5821722997269451953502693893815369148488773083766574580071992770928049851421,
   13540533045441214043274549660944821250548387860977308568363508425586553658670,
   6775393424202516986026122005962757807030144579968701732621939501307709435455,
   14325248721315893393927165052710353860647504647011991066061871805451838832458,
   4856833090972850330498459727472644398493338961308911095790894311844255582811,
   12576305545034239778260126169073086818152017225932989415013947179761872296812,
   5821719988041339240004091256207742750259169215128391529982546162395696032893,
   13540530035581253290773312046994095357610238857027704786128489025879510121870]

/-- round_constants_d from anemoi/constants.rs: the 21 additive constants applied to the y cell. -/
def ARK_DN : List ℕ :=
  [14620160566161096306687830460657433517379437898144958007406061606123629578520,
   7865622017207671573464699605179327572616470652511302029379251571049912277545,
   1111083478361774652967483675946896258127748114374402278634697584005624638266,
   8830556094143362238496507064847704187943019955280035432445204665385774300235,
   2076017555299917505445671299429047563352118820510112057814772352438096645468,
   9794825014263702343079817741766159165625984050419661014540315245130357497453,
   3040286475420257607684263798820551716207754971399499110579398643623504539518,
   10759759081131333198336842184550164977053718126924360921930914408843630054031,
   4005220542285442667782073297752806923509058145587037896513862322694027254682,
   11724651748220813618311447399497781165255552190598985626188169609089343925419,
   4970113047617277506217538345537799394304874951374689304754930113038155955644,
   12519310091162167109582961543360229330738401187149779838516381402613339901645,
   5764771599498577619683610953360967865689992570941897295065621953021913653214,
   13484244215319657314587768461141512608478104768926020029486311640770429971183,
   6719062752247691694475903380080619045305732251113200473996900083099817913338,
   14438535723352531958887320844966919350142507138150334540560247417330915327147,
   4970119931249808892692701350405041000343359064783876562391285066685303541180,
   12519310072416118001361079979460238222601666895292064631270056489960634965709,
   5764771587492566600266805625816547872095119891141087928670060860547779194846,
   13484244203313646295170963133597092614875226543460312134624195675418106264303,
   6719063009843605961773212263096938947885860250022904771418694719757202664186]


/-- round_constants_c as field elements. -/
def ARK_C : List F := ARK_CN.map (fun n => (n : F))

/-- round_constants_d as field elements. -/
def ARK_D : List F := ARK_DN.map (fun n => (n : F))

/-- Modelled from the spec: the BETA integer constant imported by both
native.rs and gadgets.rs is missing from the constants.rs of this snapshot.
Both forms read the same constant through Fr::from, and the Anemoi design
(section 4.1 of the specification: a fixed quadratic coefficient in the
open S-box) ties it to the MDS generator, so it is modelled as 7. -/
def BETA : ℕ := 7

/-- Modelled from the spec: the DELTA field static imported by gadgets.rs
is missing from this snapshot; the specification fixes one delta constant
shared by the plain and gadget S-box, so it is modelled as the value of
delta, namely 49/8 in the field (decimal literal below, with the defining
equation proved in DELTA_spec). -/
def DELTA_N : ℕ :=
  19152212512859365819465605027100115702479818850364030050735928663253832433671

/-- The DELTA static as a field element. -/
def DELTA : F := (DELTA_N : ℕ)

/-- Modelled from the spec: mul_by_generator imported by native.rs is
missing from this snapshot.  The gadget twin computes x.double() + x and
native.rs documents the diffusion row as 3x + y, and the specification
requires the two forms to agree, so it is modelled as multiplication by 3. -/
def mul_by_generator (x : F) : F := 3 * x

/-- apply_sbox from anemoi/native.rs: the open Flystel map. -/
def apply_sbox (s : F × F) : F × F :=
  let x1 := s.1 - (BETA : ℕ) * (s.2 * s.2)
  let y1 := s.2 - exp_inv_alpha x1
  let x2 := x1 + (BETA : ℕ) * (y1 * y1) + delta
  (x2, y1)

/-- apply_mds from anemoi/native.rs: x and y become
mul_by_generator x + y and x + (g + 1) y. -/
def apply_mds (s : F × F) : F × F :=
  (mul_by_generator s.1 + s.2, s.1 + ((GENERATOR + 1 : ℕ) : F) * s.2)

/-- apply_round_constants from anemoi/native.rs. -/
def apply_round_constants (s : F × F) (round : ℕ) : F × F :=
  (s.1 + ARK_C.getD round 0, s.2 + ARK_D.getD round 0)

/-- permutation from anemoi/native.rs: NUM_ROUNDS rounds of constants,
diffusion, S-box, then one final diffusion layer. -/
def anemoiPermutation (s : F × F) : F × F :=
  apply_mds ((List.range NUM_ROUNDS).foldl
    (fun st r => apply_sbox (apply_mds (apply_round_constants st r))) s)

/-- anemoi_hash_two from anemoi/native.rs: run the permutation on (a, b)
and output x + y. -/
def anemoi_hash_two (a b : F) : F :=
  let s := anemoiPermutation (a, b)
  s.1 + s.2

/-- anemoi_hash from anemoi/native.rs: pad with zero. -/
def anemoi_hash (input : F) : F := anemoi_hash_two input 0

/-- anemoi_hash_many from anemoi/native.rs: hash the first two inputs,
then fold the running accumulator with each later input. -/
def anemoi_hash_many (inputs : List F) : F :=
  match inputs with
  | [] => anemoi_hash_two 0 0
  | [x] => anemoi_hash x
  | x :: y :: rest => rest.foldl (fun acc z => anemoi_hash_two acc z) (anemoi_hash_two x y)

/-! Anemoi gadget forms (anemoi/gadgets.rs).  Each gadget is embedded as
the value it computes on the honestly assigned witnesses paired with the
conjunction of the equations its enforce_equal calls emit; the witnessed
fifth root contributes the constraint w^5 = x. -/

/-- exp_alpha_var from anemoi/gadgets.rs: square, square, multiply. -/
def exp_alpha_var (x : F) : F := x * x * (x * x) * x

/-- exp_inv_alpha_var from anemoi/gadgets.rs: witness w = exp_inv_alpha x
and enforce that the in-circuit fifth power of w equals x. -/
def exp_inv_alpha_var (x : F) : F × Prop :=
  let w := exp_inv_alpha x
  (w, exp_alpha_var w = x)

/-- mul_by_generator_var from anemoi/gadgets.rs: x.double() + x. -/
def mul_by_generator_var (x : F) : F := x + x + x

/-- apply_sbox_var from anemoi/gadgets.rs. -/
def apply_sbox_var (s : F × F) : (F × F) × Prop :=
  let x1 := s.1 - (BETA : ℕ) * (s.2 * s.2)
  let w := exp_inv_alpha_var x1
  let y1 := s.2 - w.1
  let x2 := x1 + (BETA : ℕ) * (y1 * y1) + DELTA
  ((x2, y1), w.2)

/-- apply_mds_var from anemoi/gadgets.rs. -/
def apply_mds_var (s : F × F) : F × F :=
  (mul_by_generator_var s.1 + s.2, s.1 + ((GENERATOR + 1 : ℕ) : F) * s.2)

/-- apply_round_constants_var from anemoi/gadgets.rs. -/
def apply_round_constants_var (s : F × F) (round : ℕ) : F × F :=
  (s.1 + ARK_C.getD round 0, s.2 + ARK_D.getD round 0)

/-- permutation_var from anemoi/gadgets.rs, accumulating the S-box
constraints of every round. -/
def permutation_var (s : F × F) : (F × F) × Prop :=
  let res := (List.range NUM_ROUNDS).foldl
    (fun acc r =>
      let st := apply_sbox_var (apply_mds_var (apply_round_constants_var acc.1 r))
      (st.1, acc.2 ∧ st.2))
    (s, True)
  (apply_mds_var res.1, res.2)

/-- anemoi_hash_two_var from anemoi/gadgets.rs. -/
def anemoi_hash_two_var (a b : F) : F × Prop :=
  let r := permutation_var (a, b)
  (r.1.1 + r.1.2, r.2)

/-- anemoi_hash_var from anemoi/gadgets.rs. -/
def anemoi_hash_var (input : F) : F × Prop := anemoi_hash_two_var input 0

/-- anemoi_hash_many_var from anemoi/gadgets.rs. -/
def anemoi_hash_many_var (inputs : List F) : F × Prop :=
  match inputs with
  | [] => anemoi_hash_two_var 0 0
  | [x] => anemoi_hash_var x
  | x :: y :: rest =>
    rest.foldl
      (fun acc z =>
        let h := anemoi_hash_two_var acc.1 z
        (h.1, acc.2 ∧ h.2))
      (anemoi_hash_two_var x y)

/-! ### Range checks (range_check.rs)

enforce_range decomposes the value into its canonical MODULUS_BIT_SIZE
little-endian bits (the honest assignment of to_bits_le) and enforces that
every bit at position at or beyond num_bits is zero. -/

/-- Bit size of the BN254 scalar field modulus. -/
def MODULUS_BIT_SIZE : ℕ := 254

/-- RANGE_BITS from range_check.rs. -/
def RANGE_BITS : ℕ := 32

/-- enforce_range from range_check.rs on the honestly decomposed bits. -/
def enforce_range (value : F) (num_bits : ℕ) : Prop :=
  ∀ i : ℕ, num_bits ≤ i → i < MODULUS_BIT_SIZE → value.val.testBit i = false

/-- enforce_u32_range from range_check.rs. -/
def enforce_u32_range (value : F) : Prop := enforce_range value RANGE_BITS

/-- enforce_geq from range_check.rs: the field difference a - b fits the
32-bit range. -/
def enforce_geq (a b : F) : Prop := enforce_u32_range (a - b)

/-! ### Signal hash (signal.rs) -/

/-- OpType from signal.rs. -/
inductive OpType where
  | Deposit
  | Withdraw
deriving DecidableEq

/-- OpType::to_field: Deposit is 0, Withdraw is 1. -/
def OpType.to_field : OpType → F
  | .Deposit => 0
  | .Withdraw => 1

/-- compute_signal_hash from signal.rs: Anemoi fold over the nine inputs
in protocol order. -/
def compute_signal_hash (old_commitment new_commitment registry_root : F)
    (max_capacity item_id amount : ℕ) (op_type : OpType) (nonce : ℕ)
    (inventory_id : F) : F :=
  anemoi_hash_many [old_commitment, new_commitment, registry_root,
    (max_capacity : ℕ), (item_id : ℕ), (amount : ℕ), op_type.to_field,
    (nonce : ℕ), inventory_id]

/-- compute_signal_hash_var from signal.rs: the gadget fold, all inputs
already circuit variables. -/
def compute_signal_hash_var
    (old_commitment new_commitment registry_root max_capacity item_id amount
      op_type nonce inventory_id : F) : F × Prop :=
  anemoi_hash_many_var [old_commitment, new_commitment, registry_root,
    max_capacity, item_id, amount, op_type, nonce, inventory_id]

/-- create_smt_commitment_var from smt_commitment.rs: the in-circuit
Poseidon sponge over the three state fields. -/
def create_smt_commitment_var (inventory_root current_volume blinding : F) : F :=
  poseidonSponge [inventory_root, current_volume, blinding]

/-! ### State transition circuit (state_transition.rs) -/

/-- The witness and public-input fields of StateTransitionCircuit,
with u64 fields as naturals and field-element fields in F. -/
structure StateTransitionCircuit where
  signal_hash : F
  nonce : ℕ
  inventory_id : F
  old_inventory_root : F
  old_volume : ℕ
  old_blinding : F
  new_inventory_root : F
  new_volume : ℕ
  new_blinding : F
  item_id : ℕ
  old_quantity : ℕ
  new_quantity : ℕ
  amount : ℕ
  op_type : OpType
  inventory_proof : MerkleProofL
  item_volume : ℕ
  registry_root : F
  max_capacity : ℕ

/-- generate_constraints from state_transition.rs: the conjunction of the
nine constraint groups the circuit emits, evaluated on the honestly
assigned witness (every allocated variable carries the value its
allocation closure computes). -/
def StateTransitionCircuit.constraints (c : StateTransitionCircuit) : Prop :=
  let vres := verify_and_update c.old_inventory_root (c.item_id : ℕ)
    (c.old_quantity : ℕ) (c.new_quantity : ℕ) c.inventory_proof
  let is_deposit := decide (c.op_type.to_field = (0 : F))
  let expected_new_qty : F :=
    if is_deposit then (c.old_quantity : ℕ) + (c.amount : ℕ)
    else (c.old_quantity : ℕ) - (c.amount : ℕ)
  let volume_delta : F := (c.item_volume : ℕ) * (c.amount : ℕ)
  let expected_new_volume : F :=
    if is_deposit then (c.old_volume : ℕ) + volume_delta
    else (c.old_volume : ℕ) - volume_delta
  let old_commitment := create_smt_commitment_var c.old_inventory_root
    (c.old_volume : ℕ) c.old_blinding
  let new_commitment := create_smt_commitment_var c.new_inventory_root
    (c.new_volume : ℕ) c.new_blinding
  let sig := compute_signal_hash_var old_commitment new_commitment
    c.registry_root (c.max_capacity : ℕ) (c.item_id : ℕ) (c.amount : ℕ)
    c.op_type.to_field (c.nonce : ℕ) c.inventory_id
  let is_withdraw := decide (c.op_type.to_field = (1 : F))
  vres.2 ∧
  vres.1 = c.new_inventory_root ∧
  (c.new_quantity : F) = expected_new_qty ∧
  enforce_u32_range (c.new_quantity : ℕ) ∧
  (c.new_volume : F) = expected_new_volume ∧
  enforce_u32_range (c.new_volume : ℕ) ∧
  enforce_geq (c.max_capacity : ℕ) (c.new_volume : ℕ) ∧
  sig.2 ∧
  sig.1 = c.signal_hash ∧
  (is_deposit || is_withdraw) = true

/-- StateTransitionCircuit::new: build the circuit struct, computing the
two commitments and the signal hash from the witnesses natively. -/
def StateTransitionCircuit.mkNew
    (old_inventory_root : F) (old_volume : ℕ) (old_blinding : F)
    (new_inventory_root : F) (new_volume : ℕ) (new_blinding : F)
    (item_id old_quantity new_quantity amount : ℕ) (op_type : OpType)
    (inventory_proof : MerkleProofL) (item_volume : ℕ) (registry_root : F)
    (max_capacity nonce : ℕ) (inventory_id : F) : StateTransitionCircuit :=
  let old_commitment := create_smt_commitment old_inventory_root old_volume old_blinding
  let new_commitment := create_smt_commitment new_inventory_root new_volume new_blinding
  let signal_hash := compute_signal_hash old_commitment new_commitment
    registry_root max_capacity item_id amount op_type nonce inventory_id
  { signal_hash := signal_hash
    nonce := nonce
    inventory_id := inventory_id
    old_inventory_root := old_inventory_root
    old_volume := old_volume
    old_blinding := old_blinding
    new_inventory_root := new_inventory_root
    new_volume := new_volume
    new_blinding := new_blinding
    item_id := item_id
    old_quantity := old_quantity
    new_quantity := new_quantity
    amount := amount
    op_type := op_type
    inventory_proof := inventory_proof
    item_volume := item_volume
    registry_root := registry_root
    max_capacity := max_capacity }

/-! ### Abstract subtree hashes and the tree invariant -/

/-- The Merkle hash of the height-l subtree rooted at index i, computed
from an assignment of leaf hashes. -/
def subHash (lf : ℕ → F) : ℕ → ℕ → F
  | 0, i => lf i
  | l+1, i => hash_nodes (subHash lf l (2 * i)) (subHash lf l (2 * i + 1))

/-- An item id is touched when its leaf slot holds a stored node hash
(every update stores one, including zero-quantity updates). -/
def SMTree.touched (t : SMTree) (id : ℕ) : Prop := (t.nodes 0 id).isSome = true

/-- The leaf-hash assignment realised by a tree: the stored leaf hash for
touched ids, the default leaf hash elsewhere. -/
def leafFn (t : SMTree) (j : ℕ) : F :=
  if (t.nodes 0 j).isSome then hash_leaf j (t.get j) else hash_leaf 0 0

/-- The representation invariant of SparseMerkleTree maintained by new,
from_items and update: stored nodes live at levels up to the depth,
exactly at ancestors of touched leaf slots, and hold the subtree hash of
the realised leaf assignment; leaf-map entries sit inside touched in-range
slots. -/
structure SMTreeInv (t : SMTree) : Prop where
  stored_le : ∀ l i, (t.nodes l i).isSome = true → l ≤ t.depth
  stored_iff : ∀ l i, l ≤ t.depth →
    ((t.nodes l i).isSome = true ↔
      ∃ id, (t.nodes 0 id).isSome = true ∧ id / 2 ^ l = i)
  node_val : ∀ l i v, t.nodes l i = some v → v = subHash (leafFn t) l i
  leaves_dom : ∀ id, (t.leaves id).isSome = true → (t.nodes 0 id).isSome = true
  touched_lt : ∀ id, (t.nodes 0 id).isSome = true → id < 2 ^ t.depth

/-! ### Anemoi natural-number evaluator (for concrete counterexamples) -/

/-- Anemoi S-box on reduced natural pairs mod bn254Order. -/
def anemoiSboxN (s : ℕ × ℕ) : ℕ × ℕ :=
  let p := bn254Order
  let x1 := (s.1 + p - 7 * (s.2 * s.2 % p) % p) % p
  let w := powMod x1 INV_ALPHA p
  let y1 := (s.2 + p - w) % p
  let x2 := (x1 + 7 * (y1 * y1 % p) % p + DELTA_N) % p
  (x2, y1)

/-- Anemoi diffusion on reduced natural pairs. -/
def anemoiMdsN (s : ℕ × ℕ) : ℕ × ℕ :=
  ((3 * s.1 + s.2) % bn254Order, (s.1 + 8 * s.2) % bn254Order)

/-- Anemoi round-constant addition on natural pairs. -/
def anemoiArkN (s : ℕ × ℕ) (round : ℕ) : ℕ × ℕ :=
  ((s.1 + ARK_CN.getD round 0) % bn254Order, (s.2 + ARK_DN.getD round 0) % bn254Order)

/-- Anemoi permutation on natural pairs. -/
def anemoiPermutationN (s : ℕ × ℕ) : ℕ × ℕ :=
  anemoiMdsN ((List.range NUM_ROUNDS).foldl
    (fun st r => anemoiSboxN (anemoiMdsN (anemoiArkN st r))) s)

/-- Two-to-one Anemoi hash on naturals. -/
def anemoiHashTwoN (a b : ℕ) : ℕ :=
  let s := anemoiPermutationN (a, b)
  (s.1 + s.2) % bn254Order

/-- Cast a natural triple into the field (bridge between the ZMod forms
and the natural-number evaluators). -/
def castTriple (s : ℕ × ℕ × ℕ) : F × F × F := ((s.1 : ℕ), (s.2.1 : ℕ), (s.2.2 : ℕ))

/-- Cast a natural pair into the field. -/
def castPair (s : ℕ × ℕ) : F × F := ((s.1 : ℕ), (s.2 : ℕ))

theorem powModAux_eq :
    ∀ (fuel a k p : ℕ), 0 < p → k < 2 ^ fuel → powModAux fuel a k p = a ^ k % p := by
  intro fuel
  induction fuel with
  | zero =>
    intro a k p hp hk
    interval_cases k
    simp [powModAux]
  | succ f ih =>
    intro a k p hp hk
    by_cases h0 : k = 0
    · subst h0; simp [powModAux]
    · have hk2 : k / 2 < 2 ^ f := by
        have h2 : k < 2 * 2 ^ f := by
          have := hk; rw [pow_succ] at this; omega
        omega
      have hr : powModAux f (a * a % p) (k / 2) p = (a * a) ^ (k / 2) % p := by
        rw [ih (a * a % p) (k / 2) p hp hk2]
        exact (Nat.pow_mod _ _ _).symm
      have hsq : (a * a) ^ (k / 2) = a ^ (2 * (k / 2)) := by
        rw [two_mul, pow_add, mul_pow]
      by_cases h1 : k % 2 = 1
      · have hk' : k = 2 * (k / 2) + 1 := by omega
        simp only [powModAux, h0, if_false, h1, if_true]
        rw [hr, hsq]
        conv_rhs => rw [hk', pow_succ, Nat.mul_mod]
        rw [Nat.mul_comm (a % p) (a ^ (2 * (k / 2)) % p)]
      · have hk' : k = 2 * (k / 2) := by omega
        simp only [powModAux, h0, if_false, h1, if_false]
        rw [hr, hsq, ← hk']

theorem powMod_eq (a k p : ℕ) (hp : 0 < p) (hk : k < 2 ^ 300) :
    powMod a k p = a ^ k % p :=
  powModAux_eq 300 a k p hp hk

theorem fastPowAux_eq :
    ∀ (fuel : ℕ) (x : F) (n : ℕ), n < 2 ^ fuel → fastPowAux fuel x n = x ^ n := by
  intro fuel
  induction fuel with
  | zero =>
    intro x n hn
    interval_cases n
    simp [fastPowAux]
  | succ f ih =>
    intro x n hn
    by_cases h0 : n = 0
    · subst h0; simp [fastPowAux]
    · have hn2 : n / 2 < 2 ^ f := by
        have h2 : n < 2 * 2 ^ f := by
          have := hn; rw [pow_succ] at this; omega
        omega
      have hr : fastPowAux f (x * x) (n / 2) = x ^ (2 * (n / 2)) := by
        rw [ih (x * x) (n / 2) hn2, two_mul, pow_add, mul_pow]
      by_cases h1 : n % 2 = 1
      · have hn' : n = 2 * (n / 2) + 1 := by omega
        simp only [fastPowAux, h0, if_false, h1, if_true]
        rw [hr]
        conv_rhs => rw [hn', pow_succ]
        rw [mul_comm]
      · have hn' : n = 2 * (n / 2) := by omega
        simp only [fastPowAux, h0, if_false, h1, if_false]
        rw [hr, ← hn']

theorem exp_inv_alpha_eq (x : F) : exp_inv_alpha x = x ^ INV_ALPHA :=
  fastPowAux_eq 300 x INV_ALPHA (by norm_num [INV_ALPHA])

attribute [irreducible] exp_inv_alpha

/-- Bridge between field exponentiation in ZMod and the executable powMod. -/
theorem zmod_pow_eq_one_iff (N g m : ℕ) (hN : 0 < N) (hm : m < 2 ^ 300) :
    ((g : ZMod N) ^ m = 1) ↔ powMod g m N = 1 % N := by
  have h1 : powMod g m N = g ^ m % N := powMod_eq g m N hN hm
  have h2 : ((g : ZMod N) ^ m) = ((g ^ m : ℕ) : ZMod N) := by push_cast; ring
  rw [h2, h1, show (1 : ZMod N) = ((1 : ℕ) : ZMod N) by push_cast; ring,
    ZMod.natCast_eq_natCast_iff]
  exact Iff.rfl

theorem powMod_one_of (N g m : ℕ) (hN : 0 < N) (hm : m < 2 ^ 300)
    (h : powMod g m N = 1 % N) : ((g : ZMod N) ^ m = 1) :=
  (zmod_pow_eq_one_iff N g m hN hm).mpr h

theorem powMod_ne_one_of (N g m : ℕ) (hN : 0 < N) (hm : m < 2 ^ 300)
    (h : ¬ powMod g m N = 1 % N) : ¬ ((g : ZMod N) ^ m = 1) :=
  fun hc => h ((zmod_pow_eq_one_iff N g m hN hm).mp hc)

/-! ### Primality of the BN254 scalar field order (Pratt certificate chain) -/

theorem prime_405928799 : Nat.Prime 405928799 := by
  refine lucas_primality 405928799 ((22 : ℕ) : ZMod 405928799) ?_ ?_
  · exact powMod_one_of _ _ _ (by norm_num) (by decide) (by decide)
  · intro q hq hdvd
    have hfac : (405928799 - 1 : ℕ) = 2 * (11 * (3691 * 4999)) := by norm_num
    rw [hfac] at hdvd
    have hcase : q = 2 ∨ q = 11 ∨ q = 3691 ∨ q = 4999 := by
      rcases (Nat.Prime.dvd_mul hq).mp hdvd with h | h
      · exact Or.inl ((Nat.prime_dvd_prime_iff_eq hq (by norm_num)).mp h)
      rcases (Nat.Prime.dvd_mul hq).mp h with h | h
      · exact Or.inr (Or.inl ((Nat.prime_dvd_prime_iff_eq hq (by norm_num)).mp h))
      rcases (Nat.Prime.dvd_mul hq).mp h with h | h
      · exact Or.inr (Or.inr (Or.inl ((Nat.prime_dvd_prime_iff_eq hq (by norm_num)).mp h)))
      · exact Or.inr (Or.inr (Or.inr ((Nat.prime_dvd_prime_iff_eq hq (by norm_num)).mp h)))
    rcases hcase with rfl | rfl | rfl | rfl <;>
      exact powMod_ne_one_of _ _ _ (by norm_num) (by decide) (by decide)
theorem prime_639533339 : Nat.Prime 639533339 := by
  refine lucas_primality 639533339 ((2 : ℕ) : ZMod 639533339) ?_ ?_
  · exact powMod_one_of _ _ _ (by norm_num) (by decide) (by decide)
  · intro q hq hdvd
    have hfac : (639533339 - 1 : ℕ) = 2 * (229 * (853 * (1637))) := by norm_num
    rw [hfac] at hdvd
    have hcase : q = 2 ∨ q = 229 ∨ q = 853 ∨ q = 1637 := by
      rcases (Nat.Prime.dvd_mul hq).mp hdvd with h | h
      · exact Or.inl ((Nat.prime_dvd_prime_iff_eq hq (by norm_num)).mp h)
      rcases (Nat.Prime.dvd_mul hq).mp h with h | h
      · exact Or.inr (Or.inl ((Nat.prime_dvd_prime_iff_eq hq (by norm_num)).mp h))
      rcases (Nat.Prime.dvd_mul hq).mp h with h | h
      · exact Or.inr (Or.inr (Or.inl ((Nat.prime_dvd_prime_iff_eq hq (by norm_num)).mp h)))
      · exact Or.inr (Or.inr (Or.inr (((Nat.prime_dvd_prime_iff_eq hq (by norm_num)).mp h))))
    rcases hcase with rfl | rfl | rfl | rfl <;>
      exact powMod_ne_one_of _ _ _ (by norm_num) (by decide) (by decide)

theorem prime_12048837557 : Nat.Prime 12048837557 := by
  refine lucas_primality 12048837557 ((2 : ℕ) : ZMod 12048837557) ?_ ?_
  · exact powMod_one_of _ _ _ (by norm_num) (by decide) (by decide)
  · intro q hq hdvd
    have hfac : (12048837557 - 1 : ℕ) = 2 ^ 2 * (7 ^ 2 * (661 * (93001))) := by norm_num
    rw [hfac] at hdvd
    have hcase : q = 2 ∨ q = 7 ∨ q = 661 ∨ q = 93001 := by
      rcases (Nat.Prime.dvd_mul hq).mp hdvd with h | h
      · exact Or.inl ((Nat.prime_dvd_prime_iff_eq hq (by norm_num)).mp (Nat.Prime.dvd_of_dvd_pow hq h))
      rcases (Nat.Prime.dvd_mul hq).mp h with h | h
      · exact Or.inr (Or.inl ((Nat.prime_dvd_prime_iff_eq hq (by norm_num)).mp (Nat.Prime.dvd_of_dvd_pow hq h)))
      rcases (Nat.Prime.dvd_mul hq).mp h with h | h
      · exact Or.inr (Or.inr (Or.inl ((Nat.prime_dvd_prime_iff_eq hq (by norm_num)).mp h)))
      · exact Or.inr (Or.inr (Or.inr (((Nat.prime_dvd_prime_iff_eq hq (by norm_num)).mp h))))
    rcases hcase with rfl | rfl | rfl | rfl <;>
      exact powMod_ne_one_of _ _ _ (by norm_num) (by decide) (by decide)

theorem prime_5156902474397 : Nat.Prime 5156902474397 := by
  refine lucas_primality 5156902474397 ((2 : ℕ) : ZMod 5156902474397) ?_ ?_
  · exact powMod_one_of _ _ _ (by norm_num) (by decide) (by decide)
  · intro q hq hdvd
    have hfac : (5156902474397 - 1 : ℕ) = 2 ^ 2 * (107 * (12048837557)) := by norm_num
    rw [hfac] at hdvd
    have hcase : q = 2 ∨ q = 107 ∨ q = 12048837557 := by
      rcases (Nat.Prime.dvd_mul hq).mp hdvd with h | h
      · exact Or.inl ((Nat.prime_dvd_prime_iff_eq hq (by norm_num)).mp (Nat.Prime.dvd_of_dvd_pow hq h))
      rcases (Nat.Prime.dvd_mul hq).mp h with h | h
      · exact Or.inr (Or.inl ((Nat.prime_dvd_prime_iff_eq hq (by norm_num)).mp h))
      · exact Or.inr (Or.inr (((Nat.prime_dvd_prime_iff_eq hq prime_12048837557).mp h)))
    rcases hcase with rfl | rfl | rfl <;>
      exact powMod_ne_one_of _ _ _ (by norm_num) (by decide) (by decide)

theorem prime_1670836401704629 : Nat.Prime 1670836401704629 := by
  refine lucas_primality 1670836401704629 ((2 : ℕ) : ZMod 1670836401704629) ?_ ?_
  · exact powMod_one_of _ _ _ (by norm_num) (by decide) (by decide)
  · intro q hq hdvd
    have hfac : (1670836401704629 - 1 : ℕ) = 2 ^ 2 * (3 ^ 4 * (5156902474397)) := by norm_num
    rw [hfac] at hdvd
    have hcase : q = 2 ∨ q = 3 ∨ q = 5156902474397 := by
      rcases (Nat.Prime.dvd_mul hq).mp hdvd with h | h
      · exact Or.inl ((Nat.prime_dvd_prime_iff_eq hq (by norm_num)).mp (Nat.Prime.dvd_of_dvd_pow hq h))
      rcases (Nat.Prime.dvd_mul hq).mp h with h | h
      · exact Or.inr (Or.inl ((Nat.prime_dvd_prime_iff_eq hq (by norm_num)).mp (Nat.Prime.dvd_of_dvd_pow hq h)))
      · exact Or.inr (Or.inr (((Nat.prime_dvd_prime_iff_eq hq prime_5156902474397).mp h)))
    rcases hcase with rfl | rfl | rfl <;>
      exact powMod_ne_one_of _ _ _ (by norm_num) (by decide) (by decide)

theorem prime_65865678001877903 : Nat.Prime 65865678001877903 := by
  refine lucas_primality 65865678001877903 ((5 : ℕ) : ZMod 65865678001877903) ?_ ?_
  · exact powMod_one_of _ _ _ (by norm_num) (by decide) (by decide)
  · intro q hq hdvd
    have hfac : (65865678001877903 - 1 : ℕ) = 2 * (83 * (379 * (1637 * (639533339)))) := by norm_num
    rw [hfac] at hdvd
    have hcase : q = 2 ∨ q = 83 ∨ q = 379 ∨ q = 1637 ∨ q = 639533339 := by
      rcases (Nat.Prime.dvd_mul hq).mp hdvd with h | h
      · exact Or.inl ((Nat.prime_dvd_prime_iff_eq hq (by norm_num)).mp h)
      rcases (Nat.Prime.dvd_mul hq).mp h with h | h
      · exact Or.inr (Or.inl ((Nat.prime_dvd_prime_iff_eq hq (by norm_num)).mp h))
      rcases (Nat.Prime.dvd_mul hq).mp h with h | h
      · exact Or.inr (Or.inr (Or.inl ((Nat.prime_dvd_prime_iff_eq hq (by norm_num)).mp h)))
      rcases (Nat.Prime.dvd_mul hq).mp h with h | h
      · exact Or.inr (Or.inr (Or.inr (Or.inl ((Nat.prime_dvd_prime_iff_eq hq (by norm_num)).mp h))))
      · exact Or.inr (Or.inr (Or.inr (Or.inr (((Nat.prime_dvd_prime_iff_eq hq prime_639533339).mp h)))))
    rcases hcase with rfl | rfl | rfl | rfl | rfl <;>
      exact powMod_ne_one_of _ _ _ (by norm_num) (by decide) (by decide)

theorem prime_13818364434197438864469338081 : Nat.Prime 13818364434197438864469338081 := by
  refine lucas_primality 13818364434197438864469338081 ((3 : ℕ) : ZMod 13818364434197438864469338081) ?_ ?_
  · exact powMod_one_of _ _ _ (by norm_num) (by decide) (by decide)
  · intro q hq hdvd
    have hfac : (13818364434197438864469338081 - 1 : ℕ) = 2 ^ 5 * (5 * (823 * (1593227 * (65865678001877903)))) := by norm_num
    rw [hfac] at hdvd
    have hcase : q = 2 ∨ q = 5 ∨ q = 823 ∨ q = 1593227 ∨ q = 65865678001877903 := by
      rcases (Nat.Prime.dvd_mul hq).mp hdvd with h | h
      · exact Or.inl ((Nat.prime_dvd_prime_iff_eq hq (by norm_num)).mp (Nat.Prime.dvd_of_dvd_pow hq h))
      rcases (Nat.Prime.dvd_mul hq).mp h with h | h
      · exact Or.inr (Or.inl ((Nat.prime_dvd_prime_iff_eq hq (by norm_num)).mp h))
      rcases (Nat.Prime.dvd_mul hq).mp h with h | h
      · exact Or.inr (Or.inr (Or.inl ((Nat.prime_dvd_prime_iff_eq hq (by norm_num)).mp h)))
      rcases (Nat.Prime.dvd_mul hq).mp h with h | h
      · exact Or.inr (Or.inr (Or.inr (Or.inl ((Nat.prime_dvd_prime_iff_eq hq (by norm_num)).mp h))))
      · exact Or.inr (Or.inr (Or.inr (Or.inr (((Nat.prime_dvd_prime_iff_eq hq prime_65865678001877903).mp h)))))
    rcases hcase with rfl | rfl | rfl | rfl | rfl <;>
      exact powMod_ne_one_of _ _ _ (by norm_num) (by decide) (by decide)

theorem prime_bn254Order : Nat.Prime 21888242871839275222246405745257275088548364400416034343698204186575808495617 := by
  refine lucas_primality 21888242871839275222246405745257275088548364400416034343698204186575808495617 ((5 : ℕ) : ZMod 21888242871839275222246405745257275088548364400416034343698204186575808495617) ?_ ?_
  · exact powMod_one_of _ _ _ (by norm_num) (by decide) (by decide)
  · intro q hq hdvd
    have hfac : (21888242871839275222246405745257275088548364400416034343698204186575808495617 - 1 : ℕ) = 2 ^ 28 * (3 ^ 2 * (13 * (29 * (983 * (11003 * (237073 * (405928799 * (1670836401704629 * (13818364434197438864469338081))))))))) := by norm_num
    rw [hfac] at hdvd
    have hcase : q = 2 ∨ q = 3 ∨ q = 13 ∨ q = 29 ∨ q = 983 ∨ q = 11003 ∨ q = 237073 ∨ q = 405928799 ∨ q = 1670836401704629 ∨ q = 13818364434197438864469338081 := by
      rcases (Nat.Prime.dvd_mul hq).mp hdvd with h | h
      · exact Or.inl ((Nat.prime_dvd_prime_iff_eq hq (by norm_num)).mp (Nat.Prime.dvd_of_dvd_pow hq h))
      rcases (Nat.Prime.dvd_mul hq).mp h with h | h
      · exact Or.inr (Or.inl ((Nat.prime_dvd_prime_iff_eq hq (by norm_num)).mp (Nat.Prime.dvd_of_dvd_pow hq h)))
      rcases (Nat.Prime.dvd_mul hq).mp h with h | h
      · exact Or.inr (Or.inr (Or.inl ((Nat.prime_dvd_prime_iff_eq hq (by norm_num)).mp h)))
      rcases (Nat.Prime.dvd_mul hq).mp h with h | h
      · exact Or.inr (Or.inr (Or.inr (Or.inl ((Nat.prime_dvd_prime_iff_eq hq (by norm_num)).mp h))))
      rcases (Nat.Prime.dvd_mul hq).mp h with h | h
      · exact Or.inr (Or.inr (Or.inr (Or.inr (Or.inl ((Nat.prime_dvd_prime_iff_eq hq (by norm_num)).mp h)))))
      rcases (Nat.Prime.dvd_mul hq).mp h with h | h
      · exact Or.inr (Or.inr (Or.inr (Or.inr (Or.inr (Or.inl ((Nat.prime_dvd_prime_iff_eq hq (by norm_num)).mp h))))))
      rcases (Nat.Prime.dvd_mul hq).mp h with h | h
      · exact Or.inr (Or.inr (Or.inr (Or.inr (Or.inr (Or.inr (Or.inl ((Nat.prime_dvd_prime_iff_eq hq (by norm_num)).mp h)))))))
      rcases (Nat.Prime.dvd_mul hq).mp h with h | h
      · exact Or.inr (Or.inr (Or.inr (Or.inr (Or.inr (Or.inr (Or.inr (Or.inl ((Nat.prime_dvd_prime_iff_eq hq prime_405928799).mp h))))))))
      rcases (Nat.Prime.dvd_mul hq).mp h with h | h
      · exact Or.inr (Or.inr (Or.inr (Or.inr (Or.inr (Or.inr (Or.inr (Or.inr (Or.inl ((Nat.prime_dvd_prime_iff_eq hq prime_1670836401704629).mp h)))))))))
      · exact Or.inr (Or.inr (Or.inr (Or.inr (Or.inr (Or.inr (Or.inr (Or.inr (Or.inr (((Nat.prime_dvd_prime_iff_eq hq prime_13818364434197438864469338081).mp h))))))))))
    rcases hcase with rfl | rfl | rfl | rfl | rfl | rfl | rfl | rfl | rfl | rfl <;>
      exact powMod_ne_one_of _ _ _ (by norm_num) (by decide) (by decide)

instance : Fact (Nat.Prime bn254Order) := ⟨prime_bn254Order⟩

/-! ### Fifth powers and fifth roots in the field -/

theorem inv_alpha_times_five : INV_ALPHA * 5 = (bn254Order - 1) * 4 + 1 := by
  norm_num [INV_ALPHA, bn254Order]

theorem pow_exp_cycle (x : F) : x ^ ((bn254Order - 1) * 4 + 1) = x := by
  rcases eq_or_ne x 0 with rfl | hx
  · rw [zero_pow (by omega : (bn254Order - 1) * 4 + 1 ≠ 0)]
  · rw [pow_add, pow_mul, ZMod.pow_card_sub_one_eq_one hx, one_pow, one_mul, pow_one]

theorem pow_inv_alpha_five (x : F) : (x ^ INV_ALPHA) ^ 5 = x := by
  rw [← pow_mul, inv_alpha_times_five, pow_exp_cycle]

theorem pow_five_inv_alpha (x : F) : (x ^ 5) ^ INV_ALPHA = x := by
  rw [← pow_mul, Nat.mul_comm, inv_alpha_times_five, pow_exp_cycle]

theorem exp_alpha_eq_pow (x : F) : exp_alpha x = x ^ 5 := by
  unfold exp_alpha; ring

theorem exp_alpha_var_eq_pow (x : F) : exp_alpha_var x = x ^ 5 := by
  unfold exp_alpha_var; ring

theorem pow_five_injective (x y : F) (h : x ^ 5 = y ^ 5) : x = y := by
  have hx := pow_five_inv_alpha x
  have hy := pow_five_inv_alpha y
  rw [← hx, ← hy, h]

/-! ### Anemoi gadget and native equivalence -/

theorem exp_inv_alpha_var_holds (x : F) : (exp_inv_alpha_var x).2 := by
  show exp_alpha_var (exp_inv_alpha x) = x
  rw [exp_alpha_var_eq_pow, exp_inv_alpha_eq, pow_inv_alpha_five]

theorem DELTA_spec : DELTA = delta := by
  unfold delta beta
  have h8 : ((1 : F) + ((GENERATOR : ℕ) : F)) = 8 := by
    norm_num [GENERATOR]
  have h8ne : (8 : F) ≠ 0 := by decide
  rw [h8, show ((GENERATOR * GENERATOR : ℕ) : F) = 49 by norm_num [GENERATOR],
    eq_comm, mul_inv_eq_iff_eq_mul₀ h8ne]
  decide

theorem apply_round_constants_var_val (s : F × F) (r : ℕ) :
    apply_round_constants_var s r = apply_round_constants s r := rfl

theorem apply_mds_var_val (s : F × F) : apply_mds_var s = apply_mds s := by
  unfold apply_mds_var apply_mds mul_by_generator mul_by_generator_var
  refine Prod.ext ?_ rfl
  show s.1 + s.1 + s.1 + s.2 = 3 * s.1 + s.2
  ring

theorem apply_sbox_var_val (s : F × F) : (apply_sbox_var s).1 = apply_sbox s := by
  unfold apply_sbox_var apply_sbox exp_inv_alpha_var
  rw [DELTA_spec]

theorem apply_sbox_var_holds (s : F × F) : (apply_sbox_var s).2 :=
  exp_inv_alpha_var_holds _

theorem permutation_var_spec (s : F × F) :
    (permutation_var s).1 = anemoiPermutation s ∧ (permutation_var s).2 := by
  have key : ∀ (l : List ℕ) (a : F × F) (P : Prop), P →
      (l.foldl (fun acc r =>
          let st := apply_sbox_var (apply_mds_var (apply_round_constants_var acc.1 r))
          (st.1, acc.2 ∧ st.2)) (a, P)).1
        = l.foldl (fun st r => apply_sbox (apply_mds (apply_round_constants st r))) a ∧
      (l.foldl (fun acc r =>
          let st := apply_sbox_var (apply_mds_var (apply_round_constants_var acc.1 r))
          (st.1, acc.2 ∧ st.2)) (a, P)).2 := by
    intro l
    induction l with
    | nil => intro a P hP; exact ⟨rfl, hP⟩
    | cons r rest ih =>
      intro a P hP
      simp only [List.foldl_cons]
      have hval : (apply_sbox_var (apply_mds_var (apply_round_constants_var a r))).1
          = apply_sbox (apply_mds (apply_round_constants a r)) := by
        rw [apply_round_constants_var_val, apply_mds_var_val, apply_sbox_var_val]
      rw [← hval]
      exact ih _ _ ⟨hP, apply_sbox_var_holds _⟩
  have h := key (List.range NUM_ROUNDS) s True trivial
  simp only [permutation_var, anemoiPermutation]
  exact ⟨by rw [apply_mds_var_val, h.1], h.2⟩

theorem anemoi_hash_two_var_spec (a b : F) :
    (anemoi_hash_two_var a b).1 = anemoi_hash_two a b ∧ (anemoi_hash_two_var a b).2 := by
  have h := permutation_var_spec (a, b)
  simp only [anemoi_hash_two_var, anemoi_hash_two]
  exact ⟨by rw [h.1], h.2⟩

theorem anemoi_hash_var_spec (x : F) :
    (anemoi_hash_var x).1 = anemoi_hash x ∧ (anemoi_hash_var x).2 :=
  anemoi_hash_two_var_spec x 0

theorem anemoi_fold_spec (l : List F) :
    ∀ (a : F) (P : Prop), P →
    (l.foldl (fun acc z =>
        let h := anemoi_hash_two_var acc.1 z
        (h.1, acc.2 ∧ h.2)) (a, P)).1
      = l.foldl (fun acc z => anemoi_hash_two acc z) a ∧
    (l.foldl (fun acc z =>
        let h := anemoi_hash_two_var acc.1 z
        (h.1, acc.2 ∧ h.2)) (a, P)).2 := by
  induction l with
  | nil => intro a P hP; exact ⟨rfl, hP⟩
  | cons z rest ih =>
    intro a P hP
    simp only [List.foldl_cons]
    have hs := anemoi_hash_two_var_spec a z
    rw [← hs.1]
    exact ih _ _ ⟨hP, hs.2⟩

theorem anemoi_hash_many_var_spec (xs : List F) :
    (anemoi_hash_many_var xs).1 = anemoi_hash_many xs ∧ (anemoi_hash_many_var xs).2 := by
  match xs with
  | [] => exact anemoi_hash_two_var_spec 0 0
  | [x] => exact anemoi_hash_var_spec x
  | x :: y :: rest =>
    have hs := anemoi_hash_two_var_spec x y
    have h := anemoi_fold_spec rest (anemoi_hash_two_var x y).1 (anemoi_hash_two_var x y).2 hs.2
    simp only [anemoi_hash_many_var, anemoi_hash_many]
    refine ⟨?_, h.2⟩
    rw [← hs.1]
    exact h.1

theorem compute_signal_hash_var_spec
    (oc nc rr : F) (cap id amt : ℕ) (op : OpType) (nonce : ℕ) (inv : F) :
    (compute_signal_hash_var oc nc rr (cap : ℕ) (id : ℕ) (amt : ℕ)
        op.to_field (nonce : ℕ) inv).1
      = compute_signal_hash oc nc rr cap id amt op nonce inv ∧
    (compute_signal_hash_var oc nc rr (cap : ℕ) (id : ℕ) (amt : ℕ)
        op.to_field (nonce : ℕ) inv).2 :=
  anemoi_hash_many_var_spec _

/-! ### Bridges between the field-level hashes and the natural evaluators -/

theorem bn254Order_pos : 0 < bn254Order := by norm_num [bn254Order]

theorem powMod_lt (a k : ℕ) (hk : k < 2 ^ 300) : powMod a k bn254Order < bn254Order := by
  rw [powMod_eq a k bn254Order bn254Order_pos hk]
  exact Nat.mod_lt _ bn254Order_pos

theorem cast_sub_mod (a m : ℕ) (hm : m ≤ bn254Order) :
    (((a + bn254Order - m) % bn254Order : ℕ) : F) = (a : ℕ) - (m : ℕ) := by
  rw [ZMod.natCast_mod, Nat.add_sub_assoc hm, Nat.cast_add, Nat.cast_sub hm,
    ZMod.natCast_self]
  ring

theorem getD_map_cast (l : List ℕ) : ∀ r : ℕ,
    (l.map (fun n => ((n : ℕ) : F))).getD r 0 = ((l.getD r 0 : ℕ) : F) := by
  induction l with
  | nil => intro r; simp
  | cons x xs ih =>
    intro r
    cases r with
    | zero => simp
    | succ r' => simpa using ih r'

theorem pSbox_cast (x : ℕ) : pSbox ((x : ℕ) : F) = ((pSboxN x : ℕ) : F) := by
  simp only [pSbox, pSboxN]
  push_cast [ZMod.natCast_mod]
  ring

theorem pFullRound_cast (r : ℕ) (s : ℕ × ℕ × ℕ) :
    pFullRound r (castTriple s) = castTriple (pFullRoundN r s) := by
  obtain ⟨a, b, c⟩ := s
  simp only [castTriple, pFullRound, pFullRoundN, pArk, pMds, arkConst]
  refine Prod.ext ?_ (Prod.ext ?_ ?_) <;>
    · rw [ZMod.natCast_mod]
      push_cast [← pSbox_cast, ZMod.natCast_mod]
      ring

theorem pPartialRound_cast (r : ℕ) (s : ℕ × ℕ × ℕ) :
    pPartialRound r (castTriple s) = castTriple (pPartialRoundN r s) := by
  obtain ⟨a, b, c⟩ := s
  simp only [castTriple, pPartialRound, pPartialRoundN, pArk, pMds, arkConst]
  refine Prod.ext ?_ (Prod.ext ?_ ?_) <;>
    · rw [ZMod.natCast_mod]
      push_cast [← pSbox_cast, ZMod.natCast_mod]
      ring

theorem foldl_cast_triple (f : ℕ → (F × F × F) → (F × F × F))
    (fN : ℕ → (ℕ × ℕ × ℕ) → (ℕ × ℕ × ℕ))
    (hcomm : ∀ r s, f r (castTriple s) = castTriple (fN r s)) :
    ∀ (l : List ℕ) (s : ℕ × ℕ × ℕ),
      l.foldl (fun st i => f i st) (castTriple s)
        = castTriple (l.foldl (fun st i => fN i st) s) := by
  intro l
  induction l with
  | nil => intro s; rfl
  | cons x xs ih =>
    intro s
    simp only [List.foldl_cons, hcomm]
    exact ih _

theorem pPermute_cast (s : ℕ × ℕ × ℕ) :
    pPermute (castTriple s) = castTriple (pPermuteN s) := by
  simp only [pPermute, pPermuteN]
  rw [foldl_cast_triple _ _ pFullRound_cast,
    foldl_cast_triple _ _ (fun i => pPartialRound_cast (4 + i)),
    foldl_cast_triple _ _ (fun i => pFullRound_cast (61 + i))]

attribute [irreducible] pPermute

theorem pAbsorb_two (x y : F) : pAbsorb (0, 0, 0) [x, y] = (0, x, y) := by
  show ((0 : F), (0 : F) + x, (0 : F) + y) = (0, x, y)
  rw [zero_add, zero_add]

theorem pAbsorb_cons_cons (s : F × F × F) (x y z : F) (rest : List F) :
    pAbsorb s (x :: y :: z :: rest)
      = pAbsorb (pPermute (s.1, s.2.1 + x, s.2.2 + y)) (z :: rest) := rfl

theorem pAbsorb_three (x y z : F) :
    pAbsorb (0, 0, 0) [x, y, z] = pAbsorb (pPermute (0, x, y)) [z] := by
  rw [pAbsorb_cons_cons]
  norm_num

theorem pAbsorb_one (s : F × F × F) (z : F) :
    pAbsorb s [z] = (s.1, s.2.1 + z, s.2.2) := rfl

theorem castTriple_zero (a b : ℕ) :
    ((0 : F), ((a : ℕ) : F), ((b : ℕ) : F)) = castTriple (0, a, b) := by
  dsimp only [castTriple]
  rw [Nat.cast_zero]

theorem pH_cast (a b : ℕ) : pH ((a : ℕ) : F) ((b : ℕ) : F) = ((pHN a b : ℕ) : F) := by
  unfold pH poseidonSponge
  rw [pAbsorb_two, castTriple_zero, pPermute_cast]
  dsimp only [castTriple]
  unfold pHN
  rfl

attribute [irreducible] pH

theorem create_smt_commitment_cast (a b c : ℕ) :
    create_smt_commitment ((a : ℕ) : F) b ((c : ℕ) : F) = ((pH3N a b c : ℕ) : F) := by
  rcases hp : pPermuteN (0, a, b) with ⟨u, v, w⟩
  rcases hq : pPermuteN (u, (v + c) % bn254Order, w) with ⟨r1, r2, r3⟩
  have h3 : pH3N a b c = r2 := by
    simp only [pH3N, hp, hq]
  rw [h3]
  unfold create_smt_commitment poseidonSponge
  rw [pAbsorb_three, castTriple_zero, pPermute_cast, hp]
  dsimp only [castTriple]
  rw [pAbsorb_one]
  dsimp only []
  have hc : ((v : ℕ) : F) + ((c : ℕ) : F) = (((v + c) % bn254Order : ℕ) : F) := by
    rw [ZMod.natCast_mod, Nat.cast_add]
  rw [hc,
    show (((u : ℕ) : F), (((v + c) % bn254Order : ℕ) : F), ((w : ℕ) : F))
      = castTriple (u, (v + c) % bn254Order, w) from rfl,
    pPermute_cast, hq]
  dsimp only [castTriple]

attribute [irreducible] create_smt_commitment poseidonSponge

/-! ### Bridge between the field-level Anemoi hash and its natural evaluator -/

theorem cast_pow_300 (x k : ℕ) (hk : k < 2 ^ 300) :
    ((x : ℕ) : F) ^ k = ((powMod x k bn254Order : ℕ) : F) := by
  rw [powMod_eq _ _ _ bn254Order_pos hk, ZMod.natCast_mod, Nat.cast_pow]

theorem exp_inv_alpha_cast (x : ℕ) :
    exp_inv_alpha ((x : ℕ) : F) = ((powMod x INV_ALPHA bn254Order : ℕ) : F) := by
  rw [exp_inv_alpha_eq]
  exact cast_pow_300 x INV_ALPHA (by norm_num [INV_ALPHA])

theorem delta_eq_cast : delta = ((DELTA_N : ℕ) : F) := by
  rw [← DELTA_spec]
  rfl

theorem ARK_C_getD (r : ℕ) : ARK_C.getD r 0 = ((ARK_CN.getD r 0 : ℕ) : F) := by
  unfold ARK_C
  exact getD_map_cast ARK_CN r

theorem ARK_D_getD (r : ℕ) : ARK_D.getD r 0 = ((ARK_DN.getD r 0 : ℕ) : F) := by
  unfold ARK_D
  exact getD_map_cast ARK_DN r

theorem anemoiArk_cast (s : ℕ × ℕ) (r : ℕ) :
    apply_round_constants (castPair s) r = castPair (anemoiArkN s r) := by
  obtain ⟨a, b⟩ := s
  simp only [apply_round_constants, anemoiArkN, castPair, ARK_C_getD, ARK_D_getD,
    ZMod.natCast_mod, Nat.cast_add]

theorem anemoiMds_cast (s : ℕ × ℕ) :
    apply_mds (castPair s) = castPair (anemoiMdsN s) := by
  obtain ⟨a, b⟩ := s
  have hg : ((GENERATOR + 1 : ℕ) : F) = 8 := by norm_num [GENERATOR]
  simp only [apply_mds, anemoiMdsN, castPair, mul_by_generator, hg,
    ZMod.natCast_mod, Nat.cast_add, Nat.cast_mul, Nat.cast_ofNat]

theorem anemoiSbox_cast (s : ℕ × ℕ) :
    apply_sbox (castPair s) = castPair (anemoiSboxN s) := by
  obtain ⟨a, b⟩ := s
  have hbeta : ((BETA : ℕ) : F) = ((7 : ℕ) : F) := by norm_num [BETA]
  have hm1 : 7 * (b * b % bn254Order) % bn254Order ≤ bn254Order :=
    le_of_lt (Nat.mod_lt _ bn254Order_pos)
  have hx1 : ((a : ℕ) : F) - ((BETA : ℕ) : F) * (((b : ℕ) : F) * ((b : ℕ) : F))
      = (((a + bn254Order - 7 * (b * b % bn254Order) % bn254Order) % bn254Order : ℕ) : F) := by
    rw [cast_sub_mod _ _ hm1, ZMod.natCast_mod, Nat.cast_mul, ZMod.natCast_mod,
      Nat.cast_mul, hbeta]
  simp only [apply_sbox, anemoiSboxN, castPair]
  rw [hx1]
  generalize (a + bn254Order - 7 * (b * b % bn254Order) % bn254Order) % bn254Order = n1
  rw [exp_inv_alpha_cast]
  generalize hw : powMod n1 INV_ALPHA bn254Order = w
  have hwle : w ≤ bn254Order := by
    rw [← hw]
    exact le_of_lt (powMod_lt _ _ (by norm_num [INV_ALPHA]))
  rw [show ((b : ℕ) : F) - ((w : ℕ) : F)
      = (((b + bn254Order - w) % bn254Order : ℕ) : F) from (cast_sub_mod b w hwle).symm]
  generalize (b + bn254Order - w) % bn254Order = y1
  refine Prod.ext ?_ rfl
  show ((n1 : ℕ) : F) + ((BETA : ℕ) : F) * (((y1 : ℕ) : F) * ((y1 : ℕ) : F)) + delta
      = (((n1 + 7 * (y1 * y1 % bn254Order) % bn254Order + DELTA_N) % bn254Order : ℕ) : F)
  simp only [hbeta, delta_eq_cast, ZMod.natCast_mod, Nat.cast_add, Nat.cast_mul]

theorem foldl_cast_pair (f : ℕ → (F × F) → (F × F))
    (fN : ℕ → (ℕ × ℕ) → (ℕ × ℕ))
    (hcomm : ∀ r s, f r (castPair s) = castPair (fN r s)) :
    ∀ (l : List ℕ) (s : ℕ × ℕ),
      l.foldl (fun st i => f i st) (castPair s)
        = castPair (l.foldl (fun st i => fN i st) s) := by
  intro l
  induction l with
  | nil => intro s; rfl
  | cons x xs ih =>
    intro s
    simp only [List.foldl_cons, hcomm]
    exact ih _

theorem anemoiPermutation_cast (s : ℕ × ℕ) :
    anemoiPermutation (castPair s) = castPair (anemoiPermutationN s) := by
  simp only [anemoiPermutation, anemoiPermutationN]
  rw [foldl_cast_pair
      (fun r st => apply_sbox (apply_mds (apply_round_constants st r)))
      (fun r st => anemoiSboxN (anemoiMdsN (anemoiArkN st r)))
      (fun r st => by
        dsimp only
        rw [anemoiArk_cast, anemoiMds_cast, anemoiSbox_cast]),
    anemoiMds_cast]

theorem anemoi_hash_two_cast (a b : ℕ) :
    anemoi_hash_two ((a : ℕ) : F) ((b : ℕ) : F) = ((anemoiHashTwoN a b : ℕ) : F) := by
  have hcp : (((a : ℕ) : F), ((b : ℕ) : F)) = castPair (a, b) := rfl
  simp only [anemoi_hash_two, anemoiHashTwoN, hcp, anemoiPermutation_cast]
  rcases hp : anemoiPermutationN (a, b) with ⟨u, v⟩
  simp only [castPair]
  rw [ZMod.natCast_mod, Nat.cast_add]

attribute [irreducible] anemoiPermutation anemoi_hash_two permutation_var anemoi_hash_two_var

/-! ### Sibling index arithmetic -/

theorem xor_one_even (m : ℕ) : (2 * m) ^^^ 1 = 2 * m + 1 := by
  have h := Nat.xor_bit false m true 0
  simpa [Nat.bit_false, Nat.bit_true] using h

theorem xor_one_odd (m : ℕ) : (2 * m + 1) ^^^ 1 = 2 * m := by
  have h := Nat.xor_bit true m true 0
  simpa [Nat.bit_false, Nat.bit_true] using h

theorem xor_one_of_even (k : ℕ) (h : k % 2 = 0) : k ^^^ 1 = k + 1 := by
  have hk : k = 2 * (k / 2) := by omega
  rw [hk, xor_one_even]

theorem xor_one_of_odd (k : ℕ) (h : k % 2 = 1) : k ^^^ 1 = k - 1 := by
  have hk : k = 2 * (k / 2) + 1 := by omega
  rw [hk, xor_one_odd]
  omega

theorem xor_one_ne (k : ℕ) : k ^^^ 1 ≠ k := by
  rcases Nat.mod_two_eq_zero_or_one k with h | h
  · rw [xor_one_of_even k h]; omega
  · rw [xor_one_of_odd k h]; omega

/-! ### Subtree hashes -/

theorem div_pow_succ (j l : ℕ) : j / 2 ^ (l + 1) = j / 2 ^ l / 2 := by
  rw [pow_succ, Nat.div_div_eq_div_mul]

theorem subHash_congr (lf lg : ℕ → F) :
    ∀ (l i : ℕ), (∀ j, j / 2 ^ l = i → lf j = lg j) →
      subHash lf l i = subHash lg l i := by
  intro l
  induction l with
  | zero =>
    intro i h
    exact h i (Nat.div_one i)
  | succ l ih =>
    intro i h
    show hash_nodes _ _ = hash_nodes _ _
    rw [ih (2 * i) ?_, ih (2 * i + 1) ?_]
    · intro j hj
      apply h
      rw [div_pow_succ, hj]
      omega
    · intro j hj
      apply h
      rw [div_pow_succ, hj]
      omega

theorem subHash_default (lf : ℕ → F) :
    ∀ (l i : ℕ), (∀ j, j / 2 ^ l = i → lf j = hash_leaf 0 0) →
      subHash lf l i = defaultHashes l := by
  intro l
  induction l with
  | zero =>
    intro i h
    exact h i (Nat.div_one i)
  | succ l ih =>
    intro i h
    show hash_nodes _ _ = hash_nodes (defaultHashes l) (defaultHashes l)
    rw [ih (2 * i) ?_, ih (2 * i + 1) ?_]
    · intro j hj
      apply h
      rw [div_pow_succ, hj]
      omega
    · intro j hj
      apply h
      rw [div_pow_succ, hj]
      omega

/-- Children of a subtree index, used when splitting a path step. -/
theorem subHash_children (lf : ℕ → F) (l i : ℕ) :
    subHash lf (l + 1) i = hash_nodes (subHash lf l (2 * i)) (subHash lf l (2 * i + 1)) := rfl

/-! ### Consequences of the tree invariant -/

theorem SMTreeInv.getNode_eq {t : SMTree} (h : SMTreeInv t) (l i : ℕ)
    (hl : l ≤ t.depth) :
    t.getNode l i = subHash (leafFn t) l i := by
  rcases hn : t.nodes l i with _ | v
  · have hns : ¬ (t.nodes l i).isSome = true := by rw [hn]; simp
    have hnone : ∀ j, j / 2 ^ l = i → (t.nodes 0 j).isSome = false := by
      intro j hj
      by_contra hc
      apply hns
      apply (h.stored_iff l i hl).mpr
      refine ⟨j, ?_, hj⟩
      cases hj2 : (t.nodes 0 j).isSome
      · exact absurd hj2 hc
      · rfl
    have : subHash (leafFn t) l i = defaultHashes l := by
      apply subHash_default
      intro j hj
      unfold leafFn
      rw [hnone j hj]
      simp
    rw [SMTree.getNode, hn, this]
    rfl
  · rw [SMTree.getNode, hn]
    exact h.node_val l i v hn

theorem SMTreeInv.root_eq {t : SMTree} (h : SMTreeInv t) :
    t.root = subHash (leafFn t) t.depth 0 :=
  h.getNode_eq t.depth 0 le_rfl

theorem mkEmpty_inv (d : ℕ) : SMTreeInv (SMTree.mkEmpty d) := by
  refine ⟨?_, ?_, ?_, ?_, ?_⟩
  · intro l i h
    simp [SMTree.mkEmpty] at h
  · intro l i _
    constructor
    · intro h
      simp [SMTree.mkEmpty] at h
    · rintro ⟨id, hid, _⟩
      simp [SMTree.mkEmpty] at hid
  · intro l i v h
    simp [SMTree.mkEmpty] at h
  · intro id h
    simp [SMTree.mkEmpty] at h
  · intro id h
    simp [SMTree.mkEmpty] at h

/-! ### The path-recomputation lemma -/

theorem recomputeLoop_spec (t : SMTree) (hInv : SMTreeInv t) (id : ℕ) (lf' : ℕ → F)
    (hlf : ∀ j, j ≠ id → lf' j = leafFn t j) :
    ∀ (rem level : ℕ) (m : ℕ → ℕ → Option F), level + rem = t.depth →
    (∀ l i, m l i = if l ≤ level ∧ i = id / 2 ^ l
        then some (subHash lf' l i) else t.nodes l i) →
    (∀ l i, (recomputeLoop rem level m (id / 2 ^ level)
          (subHash lf' level (id / 2 ^ level))).1 l i
        = if l ≤ t.depth ∧ i = id / 2 ^ l
          then some (subHash lf' l i) else t.nodes l i) ∧
    (recomputeLoop rem level m (id / 2 ^ level)
          (subHash lf' level (id / 2 ^ level))).2
        = subHash lf' t.depth (id / 2 ^ t.depth) := by
  intro rem
  induction rem with
  | zero =>
    intro level m hlev hm
    have hld : level = t.depth := by omega
    subst hld
    exact ⟨fun l i => hm l i, rfl⟩
  | succ rem ih =>
    intro level m hlev hm
    have hlev' : level < t.depth := by omega
    have hsibne : (id / 2 ^ level) ^^^ 1 ≠ id / 2 ^ level := xor_one_ne _
    have hsib : (m level ((id / 2 ^ level) ^^^ 1)).getD (defaultHashes level)
        = subHash lf' level ((id / 2 ^ level) ^^^ 1) := by
      have hm1 : m level ((id / 2 ^ level) ^^^ 1)
          = t.nodes level ((id / 2 ^ level) ^^^ 1) := by
        rw [hm]
        rw [if_neg]
        rintro ⟨_, h2⟩
        exact hsibne h2
      have h1 : t.getNode level ((id / 2 ^ level) ^^^ 1)
          = subHash (leafFn t) level ((id / 2 ^ level) ^^^ 1) :=
        hInv.getNode_eq _ _ (le_of_lt hlev')
      have h2 : subHash (leafFn t) level ((id / 2 ^ level) ^^^ 1)
          = subHash lf' level ((id / 2 ^ level) ^^^ 1) := by
        apply subHash_congr
        intro j hj
        have hjne : j ≠ id := by
          intro he
          subst he
          exact hsibne hj.symm
        exact (hlf j hjne).symm
      rw [hm1]
      rw [show (t.nodes level ((id / 2 ^ level) ^^^ 1)).getD (defaultHashes level)
          = t.getNode level ((id / 2 ^ level) ^^^ 1) from rfl, h1, h2]
    have hidx : id / 2 ^ level / 2 = id / 2 ^ (level + 1) := (div_pow_succ id level).symm
    have hph : (if id / 2 ^ level % 2 = 0
        then hash_nodes (subHash lf' level (id / 2 ^ level))
          (subHash lf' level ((id / 2 ^ level) ^^^ 1))
        else hash_nodes (subHash lf' level ((id / 2 ^ level) ^^^ 1))
          (subHash lf' level (id / 2 ^ level)))
        = subHash lf' (level + 1) (id / 2 ^ (level + 1)) := by
      rcases Nat.mod_two_eq_zero_or_one (id / 2 ^ level) with hpar | hpar
      · have hcur : id / 2 ^ level = 2 * (id / 2 ^ level / 2) := by omega
        rw [if_pos hpar, subHash_children, ← hidx]
        conv_lhs => rw [xor_one_of_even _ hpar]
        rw [← hcur]
      · have hcur : id / 2 ^ level = 2 * (id / 2 ^ level / 2) + 1 := by omega
        rw [if_neg (by omega), subHash_children, ← hidx]
        conv_lhs => rw [xor_one_of_odd _ hpar]
        rw [show 2 * (id / 2 ^ level / 2) = id / 2 ^ level - 1 by omega,
          show id / 2 ^ level - 1 + 1 = id / 2 ^ level by omega]
    have hm' : ∀ l i, insertNode m (level + 1) (id / 2 ^ (level + 1))
        (subHash lf' (level + 1) (id / 2 ^ (level + 1))) l i
        = if l ≤ level + 1 ∧ i = id / 2 ^ l
          then some (subHash lf' l i) else t.nodes l i := by
      intro l i
      unfold insertNode
      by_cases hli : l = level + 1 ∧ i = id / 2 ^ (level + 1)
      · rw [if_pos hli, if_pos ⟨by omega, by rw [hli.1]; exact hli.2⟩, hli.1, hli.2]
      · rw [if_neg hli, hm l i]
        by_cases hc : l ≤ level ∧ i = id / 2 ^ l
        · rw [if_pos hc, if_pos ⟨by omega, hc.2⟩]
        · rw [if_neg hc, if_neg]
          rintro ⟨h1, h2⟩
          rcases Nat.lt_or_ge l (level + 1) with h3 | h3
          · exact hc ⟨by omega, h2⟩
          · have : l = level + 1 := by omega
            exact hli ⟨this, by rw [← this]; exact h2⟩
    have hstep : recomputeLoop (rem + 1) level m (id / 2 ^ level)
        (subHash lf' level (id / 2 ^ level))
        = recomputeLoop rem (level + 1)
            (insertNode m (level + 1) (id / 2 ^ (level + 1))
              (subHash lf' (level + 1) (id / 2 ^ (level + 1))))
            (id / 2 ^ (level + 1)) (subHash lf' (level + 1) (id / 2 ^ (level + 1))) := by
      simp only [recomputeLoop]
      rw [hsib, hph, hidx]
    rw [hstep]
    exact ih (level + 1) _ (by omega) hm'

/-! ### Effects of updateCore -/

theorem updateCore_nodes (t : SMTree) (hInv : SMTreeInv t) (id q : ℕ) :
    (∀ l i, (t.updateCore id q).1.nodes l i
        = if l ≤ t.depth ∧ i = id / 2 ^ l
          then some (subHash (fun j => if j = id then hash_leaf id q else leafFn t j) l i)
          else t.nodes l i) ∧
    (t.updateCore id q).2
        = subHash (fun j => if j = id then hash_leaf id q else leafFn t j) t.depth
            (id / 2 ^ t.depth) := by
  have hlf : ∀ j, j ≠ id →
      (fun j => if j = id then hash_leaf id q else leafFn t j) j = leafFn t j := by
    intro j hj
    simp only [if_neg hj]
  have hm0 : ∀ l i, insertNode t.nodes 0 id (hash_leaf id q) l i
      = if l ≤ 0 ∧ i = id / 2 ^ l
        then some (subHash (fun j => if j = id then hash_leaf id q else leafFn t j) l i)
        else t.nodes l i := by
    intro l i
    unfold insertNode
    by_cases hli : l = 0 ∧ i = id
    · rw [if_pos hli, if_pos ⟨by omega, by rw [hli.1, pow_zero, Nat.div_one]; exact hli.2⟩,
        hli.1, hli.2]
      show some (hash_leaf id q) = some (subHash _ 0 id)
      show some (hash_leaf id q) = some (if id = id then hash_leaf id q else leafFn t id)
      rw [if_pos rfl]
    · rw [if_neg hli, if_neg]
      rintro ⟨h1, h2⟩
      have hl0 : l = 0 := by omega
      exact hli ⟨hl0, by rw [hl0, pow_zero, Nat.div_one] at h2; exact h2⟩
  have hstart : (insertNode t.nodes 0 id (hash_leaf id q) 0 id).getD (defaultHashes 0)
      = subHash (fun j => if j = id then hash_leaf id q else leafFn t j) 0 (id / 2 ^ 0) := by
    unfold insertNode
    rw [if_pos ⟨rfl, rfl⟩, pow_zero, Nat.div_one]
    show hash_leaf id q = if id = id then hash_leaf id q else leafFn t id
    rw [if_pos rfl]
  have hspec := recomputeLoop_spec t hInv id
    (fun j => if j = id then hash_leaf id q else leafFn t j) hlf t.depth 0
    (insertNode t.nodes 0 id (hash_leaf id q)) (by omega) hm0
  have hcur0 : id / 2 ^ 0 = id := by rw [pow_zero, Nat.div_one]
  rw [hcur0] at hspec
  constructor
  · intro l i
    show (recomputeLoop t.depth 0 (insertNode t.nodes 0 id (hash_leaf id q)) id
        ((insertNode t.nodes 0 id (hash_leaf id q) 0 id).getD (defaultHashes 0))).1 l i = _
    rw [hstart, hcur0]
    exact hspec.1 l i
  · show (recomputeLoop t.depth 0 (insertNode t.nodes 0 id (hash_leaf id q)) id
        ((insertNode t.nodes 0 id (hash_leaf id q) 0 id).getD (defaultHashes 0))).2 = _
    rw [hstart, hcur0]
    exact hspec.2

theorem updateCore_depth (t : SMTree) (id q : ℕ) :
    (t.updateCore id q).1.depth = t.depth := rfl

theorem updateCore_leaves (t : SMTree) (id q : ℕ) :
    (t.updateCore id q).1.leaves
      = if q = 0 then removeLeaf t.leaves id else insertLeaf t.leaves id q := rfl

theorem updateCore_get_self (t : SMTree) (id q : ℕ) :
    (t.updateCore id q).1.get id = q := by
  show ((if q = 0 then removeLeaf t.leaves id else insertLeaf t.leaves id q) id).getD 0 = q
  by_cases hq : q = 0
  · rw [if_pos hq, hq]
    unfold removeLeaf
    rw [if_pos rfl]
    rfl
  · rw [if_neg hq]
    unfold insertLeaf
    rw [if_pos rfl]
    rfl

theorem updateCore_get_other (t : SMTree) (id q j : ℕ) (hj : j ≠ id) :
    (t.updateCore id q).1.get j = t.get j := by
  show ((if q = 0 then removeLeaf t.leaves id else insertLeaf t.leaves id q) j).getD 0 = _
  by_cases hq : q = 0
  · rw [if_pos hq]
    unfold removeLeaf
    rw [if_neg hj]
    rfl
  · rw [if_neg hq]
    unfold insertLeaf
    rw [if_neg hj]
    rfl

theorem updateCore_leafFn (t : SMTree) (hInv : SMTreeInv t) (id q : ℕ) :
    leafFn (t.updateCore id q).1
      = fun j => if j = id then hash_leaf id q else leafFn t j := by
  funext j
  unfold leafFn
  by_cases hj : j = id
  · subst hj
    have hn : (t.updateCore j q).1.nodes 0 j
        = some (subHash (fun i => if i = j then hash_leaf j q else leafFn t i) 0 j) := by
      rw [(updateCore_nodes t hInv j q).1 0 j,
        if_pos ⟨Nat.zero_le _, by rw [pow_zero, Nat.div_one]⟩]
    rw [hn]
    show hash_leaf j ((t.updateCore j q).1.get j) = if j = j then hash_leaf j q else leafFn t j
    rw [updateCore_get_self, if_pos rfl]
  · have hn : (t.updateCore id q).1.nodes 0 j = t.nodes 0 j := by
      rw [(updateCore_nodes t hInv id q).1 0 j, if_neg]
      rintro ⟨_, h2⟩
      rw [pow_zero, Nat.div_one] at h2
      exact hj h2
    rw [hn, if_neg hj]
    have hg : (t.updateCore id q).1.get j = t.get j := updateCore_get_other t id q j hj
    rw [hg]

theorem updateCore_root (t : SMTree) (hInv : SMTreeInv t) (id q : ℕ) (hid : id < 2 ^ t.depth) :
    (t.updateCore id q).1.root
      = subHash (fun j => if j = id then hash_leaf id q else leafFn t j) t.depth 0 ∧
    (t.updateCore id q).2 = (t.updateCore id q).1.root := by
  have h := updateCore_nodes t hInv id q
  have hz : id / 2 ^ t.depth = 0 := Nat.div_eq_of_lt hid
  have hroot : (t.updateCore id q).1.root
      = subHash (fun j => if j = id then hash_leaf id q else leafFn t j) t.depth 0 := by
    show ((t.updateCore id q).1.nodes (t.updateCore id q).1.depth 0).getD _ = _
    rw [updateCore_depth, h.1 t.depth 0, if_pos ⟨le_rfl, hz.symm⟩]
    rfl
  exact ⟨hroot, by rw [h.2, hz, hroot]⟩

theorem updateCore_inv (t : SMTree) (hInv : SMTreeInv t) (id q : ℕ)
    (hid : id < 2 ^ t.depth) : SMTreeInv (t.updateCore id q).1 := by
  have hn := (updateCore_nodes t hInv id q).1
  have hlf := updateCore_leafFn t hInv id q
  have hdep := updateCore_depth t id q
  refine ⟨?_, ?_, ?_, ?_, ?_⟩
  · intro l i hsome
    rw [hdep]
    rw [hn l i] at hsome
    by_cases hli : l ≤ t.depth ∧ i = id / 2 ^ l
    · exact hli.1
    · rw [if_neg hli] at hsome
      exact hInv.stored_le l i hsome
  · intro l i hl
    rw [hdep] at hl
    have htch : ∀ jd, ((t.updateCore id q).1.nodes 0 jd).isSome = true
        ↔ (jd = id ∨ (t.nodes 0 jd).isSome = true) := by
      intro jd
      rw [hn 0 jd]
      by_cases hj : jd = id
      · rw [if_pos ⟨Nat.zero_le _, by rw [pow_zero, Nat.div_one, hj]⟩]
        simp [hj]
      · rw [if_neg]
        · simp [hj]
        · rintro ⟨_, h2⟩
          rw [pow_zero, Nat.div_one] at h2
          exact hj h2
    rw [hn l i]
    by_cases hli : l ≤ t.depth ∧ i = id / 2 ^ l
    · rw [if_pos hli]
      constructor
      · intro _
        exact ⟨id, (htch id).mpr (Or.inl rfl), hli.2.symm⟩
      · intro _
        simp
    · rw [if_neg hli]
      rw [hInv.stored_iff l i hl]
      constructor
      · rintro ⟨jd, hjd, hji⟩
        exact ⟨jd, (htch jd).mpr (Or.inr hjd), hji⟩
      · rintro ⟨jd, hjd, hji⟩
        rcases (htch jd).mp hjd with hje | hjo
        · subst hje
          exact absurd ⟨hl, hji.symm⟩ hli
        · exact ⟨jd, hjo, hji⟩
  · intro l i v hv
    rw [hlf]
    rw [hn l i] at hv
    by_cases hli : l ≤ t.depth ∧ i = id / 2 ^ l
    · rw [if_pos hli] at hv
      exact (Option.some_inj.mp hv).symm
    · rw [if_neg hli] at hv
      have hold := hInv.node_val l i v hv
      rw [hold]
      apply subHash_congr
      intro j hj
      have hl : l ≤ t.depth := hInv.stored_le l i (by rw [hv]; rfl)
      have hjne : j ≠ id := by
        intro he
        subst he
        exact hli ⟨hl, hj.symm⟩
      rw [if_neg hjne]
  · intro jd hsome
    rw [updateCore_leaves] at hsome
    rw [hn 0 jd]
    by_cases hj : jd = id
    · rw [if_pos ⟨Nat.zero_le _, by rw [pow_zero, Nat.div_one, hj]⟩]
      rfl
    · rw [if_neg (by rintro ⟨_, h2⟩; rw [pow_zero, Nat.div_one] at h2; exact hj h2)]
      apply hInv.leaves_dom
      by_cases hq : q = 0
      · rw [if_pos hq] at hsome
        unfold removeLeaf at hsome
        rw [if_neg hj] at hsome
        exact hsome
      · rw [if_neg hq] at hsome
        unfold insertLeaf at hsome
        rw [if_neg hj] at hsome
        exact hsome
  · intro jd hsome
    rw [hdep]
    rw [hn 0 jd] at hsome
    by_cases hj : jd = id
    · rw [hj]
      exact hid
    · rw [if_neg (by rintro ⟨_, h2⟩; rw [pow_zero, Nat.div_one] at h2; exact hj h2)] at hsome
      exact hInv.touched_lt jd hsome

/-! ### applySeq builds invariant trees -/

theorem applySeq_fold_inv (d : ℕ) :
    ∀ (s : List (ℕ × ℕ)) (t : SMTree), SMTreeInv t → t.depth = d →
      (∀ p ∈ s, p.1 < 2 ^ d) →
      SMTreeInv (s.foldl (fun t p => (t.updateCore p.1 p.2).1) t) ∧
      (s.foldl (fun t p => (t.updateCore p.1 p.2).1) t).depth = d := by
  intro s
  induction s with
  | nil => intro t ht hd _; exact ⟨ht, hd⟩
  | cons p rest ih =>
    intro t ht hd hs
    simp only [List.foldl_cons]
    apply ih
    · exact updateCore_inv t ht p.1 p.2 (by rw [hd]; exact hs p (List.mem_cons_self p rest))
    · rw [updateCore_depth]; exact hd
    · intro p' hp'
      exact hs p' (List.mem_cons_of_mem p hp')

theorem applySeq_inv (d : ℕ) (s : List (ℕ × ℕ)) (hs : ∀ p ∈ s, p.1 < 2 ^ d) :
    SMTreeInv (applySeq d s) ∧ (applySeq d s).depth = d :=
  applySeq_fold_inv d s (SMTree.mkEmpty d) (mkEmpty_inv d) rfl hs

/-! ### The proof-path fold computes subtree hashes -/

theorem hash_nodes_eq_pH (a b : F) : hash_nodes a b = pH a b := rfl

theorem proofFold_spec (t : SMTree) (hInv : SMTreeInv t) (id : ℕ) (lfX : ℕ → F)
    (hlfX : ∀ j, j ≠ id → lfX j = leafFn t j) :
    ∀ (rem level : ℕ), level + rem = t.depth →
      ((getProofLoop rem t.nodes level (id / 2 ^ level)).1.zip
        (getProofLoop rem t.nodes level (id / 2 ^ level)).2).foldl
        (fun cur p => pH (if p.2 then p.1 else cur) (if p.2 then cur else p.1))
        (subHash lfX level (id / 2 ^ level))
      = subHash lfX t.depth (id / 2 ^ t.depth) := by
  intro rem
  induction rem with
  | zero =>
    intro level hlev
    have hld : level = t.depth := by omega
    subst hld
    rfl
  | succ rem ih =>
    intro level hlev
    have hlev' : level < t.depth := by omega
    have hsibne : (id / 2 ^ level) ^^^ 1 ≠ id / 2 ^ level := xor_one_ne _
    have hsib : (t.nodes level ((id / 2 ^ level) ^^^ 1)).getD (defaultHashes level)
        = subHash lfX level ((id / 2 ^ level) ^^^ 1) := by
      have h1 : t.getNode level ((id / 2 ^ level) ^^^ 1)
          = subHash (leafFn t) level ((id / 2 ^ level) ^^^ 1) :=
        hInv.getNode_eq _ _ (le_of_lt hlev')
      have h2 : subHash (leafFn t) level ((id / 2 ^ level) ^^^ 1)
          = subHash lfX level ((id / 2 ^ level) ^^^ 1) := by
        apply subHash_congr
        intro j hj
        have hjne : j ≠ id := by
          intro he
          subst he
          exact hsibne hj.symm
        exact (hlfX j hjne).symm
      rw [show (t.nodes level ((id / 2 ^ level) ^^^ 1)).getD (defaultHashes level)
          = t.getNode level ((id / 2 ^ level) ^^^ 1) from rfl, h1, h2]
    have hidx : id / 2 ^ level / 2 = id / 2 ^ (level + 1) := (div_pow_succ id level).symm
    have hstep : getProofLoop (rem + 1) t.nodes level (id / 2 ^ level)
        = ((t.nodes level ((id / 2 ^ level) ^^^ 1)).getD (defaultHashes level)
            :: (getProofLoop rem t.nodes (level + 1) (id / 2 ^ (level + 1))).1,
          decide (id / 2 ^ level % 2 = 1)
            :: (getProofLoop rem t.nodes (level + 1) (id / 2 ^ (level + 1))).2) := by
      simp only [getProofLoop]
      rw [hidx]
    rw [hstep, hsib]
    simp only [List.zip_cons_cons, List.foldl_cons]
    have hph : pH
        (if decide (id / 2 ^ level % 2 = 1) then subHash lfX level ((id / 2 ^ level) ^^^ 1)
          else subHash lfX level (id / 2 ^ level))
        (if decide (id / 2 ^ level % 2 = 1) then subHash lfX level (id / 2 ^ level)
          else subHash lfX level ((id / 2 ^ level) ^^^ 1))
        = subHash lfX (level + 1) (id / 2 ^ (level + 1)) := by
      rcases Nat.mod_two_eq_zero_or_one (id / 2 ^ level) with hpar | hpar
      · have hdec : decide (id / 2 ^ level % 2 = 1) = false := by
          rw [hpar]; rfl
        have hcur : id / 2 ^ level = 2 * (id / 2 ^ level / 2) := by omega
        rw [hdec, ← hash_nodes_eq_pH]
        simp only [Bool.false_eq_true, if_false]
        rw [subHash_children, ← hidx]
        conv_lhs => rw [xor_one_of_even _ hpar]
        rw [← hcur]
      · have hdec : decide (id / 2 ^ level % 2 = 1) = true := by
          rw [hpar]; rfl
        have hcur : id / 2 ^ level = 2 * (id / 2 ^ level / 2) + 1 := by omega
        rw [hdec, ← hash_nodes_eq_pH]
        simp only [if_true]
        rw [subHash_children, ← hidx]
        conv_lhs => rw [xor_one_of_odd _ hpar]
        rw [show 2 * (id / 2 ^ level / 2) = id / 2 ^ level - 1 by omega,
          show id / 2 ^ level - 1 + 1 = id / 2 ^ level by omega]
    rw [hph]
    exact ih (level + 1) (by omega)

theorem compute_root_from_path_getProof (t : SMTree) (hInv : SMTreeInv t) (id : ℕ)
    (hid : id < 2 ^ t.depth) (lfX : ℕ → F)
    (hlfX : ∀ j, j ≠ id → lfX j = leafFn t j) :
    compute_root_from_path (lfX id) (t.getProofCore id) = subHash lfX t.depth 0 := by
  have h := proofFold_spec t hInv id lfX hlfX t.depth 0 (by omega)
  have h0 : id / 2 ^ 0 = id := by rw [pow_zero, Nat.div_one]
  have hz : id / 2 ^ t.depth = 0 := Nat.div_eq_of_lt hid
  rw [h0, hz] at h
  unfold compute_root_from_path SMTree.getProofCore
  show ((getProofLoop t.depth t.nodes 0 id).1.zip
      (getProofLoop t.depth t.nodes 0 id).2).foldl _ (lfX id) = _
  rw [show lfX id = subHash lfX 0 id from rfl]
  exact h

theorem compute_root_from_path_eq_native (X : F) (pr : MerkleProofL) :
    compute_root_from_path X pr = pr.computeRootFromLeaf X := by
  unfold compute_root_from_path MerkleProofL.computeRootFromLeaf
  apply List.foldl_ext
  intro cur p _
  rcases p with ⟨sib, b⟩
  cases b
  · simp [hash_nodes_eq_pH]
  · simp [hash_nodes_eq_pH]

/-! ### Range check semantics -/

instance : NeZero bn254Order := ⟨by norm_num [bn254Order]⟩

theorem enforce_u32_range_iff (v : F) : enforce_u32_range v ↔ v.val < 2 ^ 32 := by
  unfold enforce_u32_range enforce_range RANGE_BITS MODULUS_BIT_SIZE
  constructor
  · intro h
    by_contra hc
    push_neg at hc
    obtain ⟨i, hi, hbit⟩ := Nat.ge_two_pow_implies_high_bit_true hc
    have hvlt : v.val < 2 ^ 254 :=
      lt_of_lt_of_le (ZMod.val_lt v) (by norm_num [bn254Order])
    have hi254 : i < 254 := by
      by_contra h254
      push_neg at h254
      have hlt : v.val < 2 ^ i :=
        lt_of_lt_of_le hvlt (Nat.pow_le_pow_right (by omega) (by omega))
      rw [Nat.testBit_lt_two_pow hlt] at hbit
      exact Bool.false_ne_true hbit
    rw [h i hi hi254] at hbit
    exact Bool.false_ne_true hbit
  · intro h i h32 _
    exact Nat.testBit_lt_two_pow
      (lt_of_lt_of_le h (Nat.pow_le_pow_right (by omega) h32))

theorem enforce_geq_iff_val (a b : F) : enforce_geq a b ↔ (a - b).val < 2 ^ 32 :=
  enforce_u32_range_iff (a - b)

theorem val_cast_small (a : ℕ) (h : a < 2 ^ 64) : ((a : ℕ) : F).val = a :=
  ZMod.val_cast_of_lt (lt_of_lt_of_le h (by norm_num [bn254Order]))

theorem cast_sub_of_le (a b : ℕ) (h : b ≤ a) :
    ((a : ℕ) : F) - ((b : ℕ) : F) = ((a - b : ℕ) : F) := by
  rw [Nat.cast_sub h]

theorem cast_sub_of_gt (a b : ℕ) (_hab : a < b) (hb : b ≤ bn254Order) :
    ((a : ℕ) : F) - ((b : ℕ) : F) = ((a + (bn254Order - b) : ℕ) : F) := by
  rw [Nat.cast_add, Nat.cast_sub hb, ZMod.natCast_self]
  ring

theorem enforce_geq_nat (a b : ℕ) (ha : a < 2 ^ 32) (hb : b < 2 ^ 32) :
    (enforce_geq ((a : ℕ) : F) ((b : ℕ) : F) ↔ b ≤ a) := by
  rw [enforce_geq_iff_val]
  rcases le_or_lt b a with hba | hba
  · rw [cast_sub_of_le a b hba, val_cast_small (a - b) (by omega)]
    constructor
    · intro _; exact hba
    · intro _; omega
  · rw [cast_sub_of_gt a b hba (by unfold bn254Order; omega)]
    have hval : ((a + (bn254Order - b) : ℕ) : F).val = a + (bn254Order - b) := by
      apply ZMod.val_cast_of_lt
      have : 0 < b := by omega
      norm_num [bn254Order] at *
      omega
    rw [hval]
    constructor
    · intro hlt
      exfalso
      have : 2 ^ 32 < bn254Order - b := by
        have hb' : b < 2 ^ 32 := hb
        norm_num [bn254Order] at *
        omega
      omega
    · intro hle; omega

/-! ### Claim theorems -/

/-- C9: for every field element x, raising the computed fifth root of x to
the fifth power yields x back, and conversely taking the fifth root of the
fifth power of x yields x: the maps exp_alpha and exp_inv_alpha of
anemoi/constants.rs are mutual inverses on the whole field. -/
theorem C9_fifth_root_fifth_power_inverse (x : F) :
    exp_alpha (exp_inv_alpha x) = x ∧ exp_inv_alpha (exp_alpha x) = x := by
  constructor
  · rw [exp_alpha_eq_pow, exp_inv_alpha_eq, pow_inv_alpha_five]
  · rw [exp_alpha_eq_pow, exp_inv_alpha_eq, pow_five_inv_alpha]

/-- C4: the in-circuit verify_and_update is satisfied exactly when the root
recomputed along the proof path from the expected old leaf equals the given
old root, where the expected old leaf is the constant default leaf hash of
(0, 0) when the old quantity is zero and the hash of (item id, old quantity)
otherwise; and its returned value is the root recomputed along the same
sibling path from the new leaf hash of (item id, new quantity). -/
theorem C4_verify_and_update_characterisation
    (old_root item_id old_quantity new_quantity : F) (pr : MerkleProofL) :
    ((verify_and_update old_root item_id old_quantity new_quantity pr).2 ↔
      compute_root_from_path
        (if old_quantity = 0 then pH 0 0 else pH item_id old_quantity) pr = old_root) ∧
    (verify_and_update old_root item_id old_quantity new_quantity pr).1
      = compute_root_from_path (pH item_id new_quantity) pr := by
  by_cases h : old_quantity = 0 <;>
    simp [verify_and_update, h]

/-- C10: updating item i to quantity q in a well-formed tree within
capacity makes get i return q (0 stays 0 since the entry is removed),
leaves get j unchanged for every other id j, and mutates no stored leaf
node other than the one at i. -/
theorem C10_update_get_frame (t : SMTree) (hInv : SMTreeInv t) (i q : ℕ)
    (hi : i < 2 ^ t.depth) :
    ∃ t' r, t.update i q = PanicOr.ok (t', r) ∧
      t'.get i = q ∧
      (∀ j, j ≠ i → t'.get j = t.get j) ∧
      (∀ j, j ≠ i → t'.nodes 0 j = t.nodes 0 j) := by
  refine ⟨(t.updateCore i q).1, (t.updateCore i q).2, ?_, ?_, ?_, ?_⟩
  · unfold SMTree.update
    rw [if_pos hi]
  · exact updateCore_get_self t i q
  · intro j hj
    exact updateCore_get_other t i q j hj
  · intro j hj
    rw [(updateCore_nodes t hInv i q).1 0 j, if_neg]
    rintro ⟨_, h2⟩
    rw [pow_zero, Nat.div_one] at h2
    exact hj h2

/-- Witness for C10 at a concrete tree: the depth-2 accumulator holding
item 1 with quantity 5, updating item 2 to quantity 7. -/
theorem C10_update_get_frame_witness :
    ∃ t' r, (applySeq 2 [(1, 5)]).update 2 7 = PanicOr.ok (t', r) ∧
      t'.get 2 = 7 ∧
      (∀ j, j ≠ 2 → t'.get j = (applySeq 2 [(1, 5)]).get j) ∧
      (∀ j, j ≠ 2 → t'.nodes 0 j = (applySeq 2 [(1, 5)]).nodes 0 j) := by
  have hinv := applySeq_inv 2 [(1, 5)] (by intro p hp; simp at hp; rw [hp]; decide)
  exact C10_update_get_frame (applySeq 2 [(1, 5)]) hinv.1 2 7 (by rw [hinv.2]; omega)

/-- C8 counterexample: on a depth-12 tree, the rejected calls update(4096, 5)
and get_proof(4096) surface as Rust panics (the assert in tree.rs), not as a
typed error value returned to the caller, contradicting the claim that the
rejection is a typed error rather than a panic. -/
theorem C8_counterexample_panic :
    (SMTree.mkEmpty 12).update 4096 5
        = PanicOr.panic "item_id exceeds tree capacity" ∧
    (SMTree.mkEmpty 12).get_proof 4096
        = PanicOr.panic "item_id exceeds tree capacity" := by
  constructor
  · unfold SMTree.update
    rw [if_neg (by decide)]
  · unfold SMTree.get_proof
    rw [if_neg (by decide)]

/-- C8 amended: every item id at or beyond 2 to the depth is rejected by
both update and get_proof before any mutation, but the rejection is the
assertion panic of tree.rs (no new tree state is produced, so the
accumulator is unchanged); it is not surfaced as a typed error. -/
theorem C8_out_of_capacity_rejected (t : SMTree) (id q : ℕ)
    (h : 2 ^ t.depth ≤ id) :
    t.update id q = PanicOr.panic "item_id exceeds tree capacity" ∧
    t.get_proof id = PanicOr.panic "item_id exceeds tree capacity" := by
  constructor
  · unfold SMTree.update
    rw [if_neg (by omega)]
  · unfold SMTree.get_proof
    rw [if_neg (by omega)]

/-- Witness for the amended C8 at the default depth 12 and item id 4096. -/
theorem C8_out_of_capacity_rejected_witness :
    (SMTree.mkEmpty 12).update 4096 5
        = PanicOr.panic "item_id exceeds tree capacity" ∧
    (SMTree.mkEmpty 12).get_proof 4096
        = PanicOr.panic "item_id exceeds tree capacity" :=
  C8_out_of_capacity_rejected (SMTree.mkEmpty 12) 4096 5 (by decide)

/-- recompute_path only stores parents at levels strictly above its starting
level, so entries at or below that level are untouched. -/
theorem recomputeLoop_nodes_low :
    ∀ (rem level : ℕ) (m : ℕ → ℕ → Option F) (cur : ℕ) (h : F) (l j : ℕ),
      l ≤ level → (recomputeLoop rem level m cur h).1 l j = m l j := by
  intro rem
  induction rem with
  | zero =>
    intro level m cur h l j _
    rfl
  | succ rem ih =>
    intro level m cur h l j hl
    unfold recomputeLoop
    dsimp only
    rw [ih (level + 1) _ _ _ l j (Nat.le_succ_of_le hl)]
    unfold insertNode
    rw [if_neg]
    rintro ⟨h1, _⟩
    omega

/-- The level-0 row after an update: the new leaf hash at the updated id,
everything else untouched. -/
theorem updateCore_nodes0 (t : SMTree) (id q j : ℕ) :
    (t.updateCore id q).1.nodes 0 j
      = if j = id then some (hash_leaf id q) else t.nodes 0 j := by
  show (recomputeLoop t.depth 0 (insertNode t.nodes 0 id (hash_leaf id q)) id _).1 0 j = _
  rw [recomputeLoop_nodes_low t.depth 0 _ _ _ 0 j le_rfl]
  unfold insertNode
  by_cases hj : j = id
  · rw [if_pos ⟨rfl, hj⟩, if_pos hj]
  · rw [if_neg (fun hc => hj hc.2), if_neg hj]

/-- C3 counterexample: on a depth-1 tree, setting item 1 to quantity 5 and
then back to 0 yields the same final id-to-quantity mapping as the untouched
empty tree (every lookup agrees), yet the two roots differ, because the
zero-quantity update stores the leaf hash of (1, 0) in the node map while
the empty slot carries the default leaf hash of (0, 0). The root therefore
depends on the update history, not only on the final mapping. -/
theorem C3_counterexample_history_dependent_root :
    (∀ id, (applySeq 1 [(1, 5), (1, 0)]).get id = (applySeq 1 []).get id) ∧
    (applySeq 1 [(1, 5), (1, 0)]).root ≠ (applySeq 1 []).root := by
  have e1 : applySeq 1 [(1, 5), (1, 0)]
      = (((SMTree.mkEmpty 1).updateCore 1 5).1.updateCore 1 0).1 := rfl
  have e2 : applySeq 1 ([] : List (ℕ × ℕ)) = SMTree.mkEmpty 1 := rfl
  constructor
  · intro id
    rw [e1, e2]
    by_cases h : id = 1
    · subst h
      rw [updateCore_get_self]
      rfl
    · rw [updateCore_get_other _ _ _ _ h, updateCore_get_other _ _ _ _ h]
  · rw [e1, e2]
    have h1 : (((SMTree.mkEmpty 1).updateCore 1 5).1.updateCore 1 0).1.root
        = pH (pH ((0 : ℕ) : F) ((0 : ℕ) : F)) (pH ((1 : ℕ) : F) ((0 : ℕ) : F)) := rfl
    have h2 : (SMTree.mkEmpty 1).root
        = pH (pH ((0 : ℕ) : F) ((0 : ℕ) : F)) (pH ((0 : ℕ) : F) ((0 : ℕ) : F)) := rfl
    rw [h1, h2, pH_cast, pH_cast, pH_cast, pH_cast]
    intro heq
    have hv := congrArg ZMod.val heq
    rw [ZMod.val_natCast, ZMod.val_natCast] at hv
    exact absurd hv (by decide)

/-- C3 amended: for two in-capacity update sequences on empty trees of the
same depth, if the final id-to-quantity mappings agree and the sets of
item ids ever updated (the ids whose leaf slot holds a stored hash) agree,
then the two roots are equal: the root is determined by the final mapping
together with the touched-slot set, independent of order and intermediate
values. -/
theorem C3_root_from_mapping_and_touched (d : ℕ) (s1 s2 : List (ℕ × ℕ))
    (h1 : ∀ p ∈ s1, p.1 < 2 ^ d) (h2 : ∀ p ∈ s2, p.1 < 2 ^ d)
    (hget : ∀ id, (applySeq d s1).get id = (applySeq d s2).get id)
    (htouch : ∀ id, ((applySeq d s1).touched id ↔ (applySeq d s2).touched id)) :
    (applySeq d s1).root = (applySeq d s2).root := by
  obtain ⟨hinv1, hd1⟩ := applySeq_inv d s1 h1
  obtain ⟨hinv2, hd2⟩ := applySeq_inv d s2 h2
  rw [hinv1.root_eq, hinv2.root_eq, hd1, hd2]
  apply subHash_congr
  intro j _
  have ht : ((applySeq d s1).nodes 0 j).isSome
      = ((applySeq d s2).nodes 0 j).isSome := by
    have hiff := htouch j
    unfold SMTree.touched at hiff
    cases hA : ((applySeq d s1).nodes 0 j).isSome <;>
      cases hB : ((applySeq d s2).nodes 0 j).isSome <;> simp_all
  simp only [leafFn, ht, hget j]

/-- Witness for the amended C3: on depth-1 trees, setting item 1 to 5 and
then to 7 gives the same root as setting item 1 to 7 directly. -/
theorem C3_root_from_mapping_and_touched_witness :
    (applySeq 1 [(1, 5), (1, 7)]).root = (applySeq 1 [(1, 7)]).root := by
  have e1 : applySeq 1 [(1, 5), (1, 7)]
      = (((SMTree.mkEmpty 1).updateCore 1 5).1.updateCore 1 7).1 := rfl
  have e2 : applySeq 1 [(1, 7)] = ((SMTree.mkEmpty 1).updateCore 1 7).1 := rfl
  apply C3_root_from_mapping_and_touched 1 [(1, 5), (1, 7)] [(1, 7)]
  · intro p hp
    simp at hp
    rcases hp with h | h <;> rw [h] <;> decide
  · intro p hp
    simp at hp
    rw [hp]
    decide
  · intro id
    by_cases h : id = 1
    · subst h
      rfl
    · rw [e1, e2, updateCore_get_other _ _ _ _ h, updateCore_get_other _ _ _ _ h,
        updateCore_get_other _ _ _ _ h]
  · intro id
    by_cases h : id = 1
    · subst h
      constructor <;> intro _ <;> rfl
    · have hn1 : (applySeq 1 [(1, 5), (1, 7)]).nodes 0 id = none := by
        rw [e1, updateCore_nodes0, if_neg h, updateCore_nodes0, if_neg h]
        rfl
      have hn2 : (applySeq 1 [(1, 7)]).nodes 0 id = none := by
        rw [e2, updateCore_nodes0, if_neg h]
        rfl
      unfold SMTree.touched
      rw [hn1, hn2]

/-- C5 counterexample: at root 0, volume 0, blinding 0 the commitment (a
Poseidon sponge) differs from the pairwise Anemoi fold hashMany of the same
three inputs, refuting the claim that the commitment is computed with the
AlgebraicHash pairwise fold. -/
theorem C5_counterexample_commitment_not_anemoi :
    create_smt_commitment 0 0 0 ≠ anemoi_hash_many [0, 0, 0] := by
  have hc : create_smt_commitment 0 0 0 = ((pH3N 0 0 0 : ℕ) : F) := by
    have h := create_smt_commitment_cast 0 0 0
    simpa using h
  have ha : anemoi_hash_many [0, 0, 0]
      = ((anemoiHashTwoN (anemoiHashTwoN 0 0) 0 : ℕ) : F) := by
    show anemoi_hash_two (anemoi_hash_two 0 0) 0 = _
    have h1 : anemoi_hash_two (0 : F) (0 : F) = ((anemoiHashTwoN 0 0 : ℕ) : F) := by
      have h := anemoi_hash_two_cast 0 0
      simpa using h
    have h2 := anemoi_hash_two_cast (anemoiHashTwoN 0 0) 0
    simp only [Nat.cast_zero] at h2
    rw [h1, h2]
  rw [hc, ha]
  intro heq
  have hv := congrArg ZMod.val heq
  rw [ZMod.val_natCast, ZMod.val_natCast] at hv
  exact absurd hv (by decide)

/-- C5 amended: the commitment is the width-3 Poseidon sponge over
[root, volume, blinding]: absorb the first rate-sized chunk [root, volume]
into the rate cells, permute, absorb [blinding], permute again and squeeze
the first rate cell.  It is not an Anemoi pairwise fold. -/
theorem C5_commitment_is_poseidon_sponge (r b : F) (v : ℕ) :
    create_smt_commitment r v b
      = (pPermute
          ((pPermute (0, r, (v : ℕ))).1,
           (pPermute (0, r, (v : ℕ))).2.1 + b,
           (pPermute (0, r, (v : ℕ))).2.2)).2.1 := by
  unfold create_smt_commitment poseidonSponge
  rw [pAbsorb_three, pAbsorb_one]

/-- The constraint emitted by verify_and_update, as an explicit equation on
the recomputed old root. -/
theorem verify_and_update_sat_iff (old_root item_id old_quantity new_quantity : F)
    (pr : MerkleProofL) :
    (verify_and_update old_root item_id old_quantity new_quantity pr).2
      ↔ compute_root_from_path
          (if old_quantity = 0 then pH 0 0 else pH item_id old_quantity) pr = old_root := by
  by_cases h : old_quantity = 0 <;> simp [verify_and_update, h]

/-- The value returned by verify_and_update is the root recomputed from the
new leaf hash. -/
theorem verify_and_update_value (old_root item_id old_quantity new_quantity : F)
    (pr : MerkleProofL) :
    (verify_and_update old_root item_id old_quantity new_quantity pr).1
      = compute_root_from_path (pH item_id new_quantity) pr := rfl

/-- On a well-formed tree whose zero slots are genuinely untouched, the
gadget accepts the honest witness and returns the native new root. -/
theorem verify_and_update_correct (t : SMTree) (hinv : SMTreeInv t) (id q : ℕ)
    (hid : id < 2 ^ t.depth)
    (hq : t.get id < bn254Order)
    (hz : t.get id = 0 → t.nodes 0 id = none) :
    (verify_and_update t.root ((id : ℕ) : F) ((t.get id : ℕ) : F) ((q : ℕ) : F)
        (t.getProofCore id)).2 ∧
    (verify_and_update t.root ((id : ℕ) : F) ((t.get id : ℕ) : F) ((q : ℕ) : F)
        (t.getProofCore id)).1 = (t.updateCore id q).2 ∧
    (t.updateCore id q).2 = (t.updateCore id q).1.root := by
  have hleaf : (if ((t.get id : ℕ) : F) = 0 then pH 0 0
      else pH ((id : ℕ) : F) ((t.get id : ℕ) : F)) = leafFn t id := by
    by_cases h0 : t.get id = 0
    · rw [if_pos (by rw [h0]; norm_num)]
      unfold leafFn
      rw [hz h0]
      simp [hash_leaf]
    · have hne : ((t.get id : ℕ) : F) ≠ 0 := by
        intro hc
        have hv := congrArg ZMod.val hc
        rw [ZMod.val_natCast, Nat.mod_eq_of_lt hq] at hv
        exact h0 (by simpa using hv)
      rw [if_neg hne]
      have htch : (t.nodes 0 id).isSome = true := by
        apply hinv.leaves_dom
        rcases hl : t.leaves id with _ | v
        · exfalso
          apply h0
          unfold SMTree.get
          rw [hl]
          rfl
        · rfl
      simp [leafFn, htch, hash_leaf]
  have hsat : compute_root_from_path (leafFn t id) (t.getProofCore id) = t.root := by
    rw [compute_root_from_path_getProof t hinv id hid (leafFn t) (fun j _ => rfl)]
    exact hinv.root_eq.symm
  have hnew : compute_root_from_path (pH ((id : ℕ) : F) ((q : ℕ) : F)) (t.getProofCore id)
      = (t.updateCore id q).2 := by
    have h := compute_root_from_path_getProof t hinv id hid
        (fun j => if j = id then hash_leaf id q else leafFn t j)
        (fun j hj => by dsimp only; rw [if_neg hj])
    dsimp only at h
    rw [if_pos rfl] at h
    rw [(updateCore_nodes t hinv id q).2, Nat.div_eq_of_lt hid]
    exact h
  refine ⟨?_, ?_, (updateCore_root t hinv id q hid).2⟩
  · rw [verify_and_update_sat_iff, hleaf]
    exact hsat
  · rw [verify_and_update_value]
    exact hnew

/-- C2 counterexample: the history-sensitive tree that set item 1 to 5 and
back to 0 is a reachable native state on which the honest in-circuit
witness (old root, item id 1, the old quantity 0 the native get reports,
and the proof drawn from the tree) violates the verify-and-update
constraint: the gadget expects the default leaf hash for quantity 0 but
the tree stores the leaf hash of (1, 0).  The claimed equivalence between
the circuit form and the plain form fails on this state. -/
theorem C2_counterexample_gadget_rejects_native_state :
    ∃ pr : MerkleProofL,
      (applySeq 1 [(1, 5), (1, 0)]).get_proof 1 = PanicOr.ok pr ∧
      ¬ (verify_and_update (applySeq 1 [(1, 5), (1, 0)]).root
          ((1 : ℕ) : F) (((applySeq 1 [(1, 5), (1, 0)]).get 1 : ℕ) : F)
          ((5 : ℕ) : F) pr).2 := by
  have e1 : applySeq 1 [(1, 5), (1, 0)]
      = (((SMTree.mkEmpty 1).updateCore 1 5).1.updateCore 1 0).1 := rfl
  refine ⟨(applySeq 1 [(1, 5), (1, 0)]).getProofCore 1, ?_, ?_⟩
  · unfold SMTree.get_proof
    rw [if_pos (by decide)]
  · have hget : (((applySeq 1 [(1, 5), (1, 0)]).get 1 : ℕ) : F) = 0 := by
      rw [e1, updateCore_get_self]
      norm_num
    rw [hget, verify_and_update_sat_iff, if_pos rfl]
    have hpr : (applySeq 1 [(1, 5), (1, 0)]).getProofCore 1
        = ⟨[pH ((0 : ℕ) : F) ((0 : ℕ) : F)], [true]⟩ := rfl
    have hcr : compute_root_from_path (pH 0 0)
        (⟨[pH ((0 : ℕ) : F) ((0 : ℕ) : F)], [true]⟩ : MerkleProofL)
        = pH (pH ((0 : ℕ) : F) ((0 : ℕ) : F)) (pH 0 0) := rfl
    have hroot : (applySeq 1 [(1, 5), (1, 0)]).root
        = pH (pH ((0 : ℕ) : F) ((0 : ℕ) : F)) (pH ((1 : ℕ) : F) ((0 : ℕ) : F)) := rfl
    rw [hpr, hcr, hroot]
    have h00 : pH (0 : F) (0 : F) = ((pHN 0 0 : ℕ) : F) := by
      have h := pH_cast 0 0
      simpa using h
    rw [pH_cast 0 0, pH_cast 1 0, h00, pH_cast (pHN 0 0) (pHN 0 0),
      pH_cast (pHN 0 0) (pHN 1 0)]
    intro heq
    have hv := congrArg ZMod.val heq
    rw [ZMod.val_natCast, ZMod.val_natCast] at hv
    exact absurd hv (by decide)

/-- C2 amended: the gadget and native forms of the hash, commitment and
signal primitives agree everywhere and the hash gadget constraints are
always satisfiable on the honest witness; the verify-and-update gadget
agrees with the native update on every reachable in-capacity tree state
under the extra hypothesis that an id reported as quantity 0 was never
explicitly updated (this hypothesis is what the counterexample violates):
then the gadget constraint is satisfied on the honest witness and the
returned value is the native new root. -/
theorem C2_gadgets_refine_native (d : ℕ) (s : List (ℕ × ℕ)) (id q : ℕ)
    (hs : ∀ p ∈ s, p.1 < 2 ^ d)
    (hid : id < 2 ^ d)
    (hq : (applySeq d s).get id < bn254Order)
    (hz : (applySeq d s).get id = 0 → (applySeq d s).nodes 0 id = none) :
    (∀ a b : F,
      (anemoi_hash_two_var a b).1 = anemoi_hash_two a b ∧ (anemoi_hash_two_var a b).2) ∧
    (∀ xs : List F,
      (anemoi_hash_many_var xs).1 = anemoi_hash_many xs ∧ (anemoi_hash_many_var xs).2) ∧
    (∀ (r b : F) (v : ℕ),
      create_smt_commitment_var r ((v : ℕ) : F) b = create_smt_commitment r v b) ∧
    (∀ (oc nc rr : F) (cap iid amt : ℕ) (op : OpType) (nonce : ℕ) (inv : F),
      (compute_signal_hash_var oc nc rr (cap : ℕ) (iid : ℕ) (amt : ℕ)
          op.to_field (nonce : ℕ) inv).1
        = compute_signal_hash oc nc rr cap iid amt op nonce inv ∧
      (compute_signal_hash_var oc nc rr (cap : ℕ) (iid : ℕ) (amt : ℕ)
          op.to_field (nonce : ℕ) inv).2) ∧
    ((verify_and_update (applySeq d s).root ((id : ℕ) : F)
        (((applySeq d s).get id : ℕ) : F) ((q : ℕ) : F)
        ((applySeq d s).getProofCore id)).2 ∧
     (verify_and_update (applySeq d s).root ((id : ℕ) : F)
        (((applySeq d s).get id : ℕ) : F) ((q : ℕ) : F)
        ((applySeq d s).getProofCore id)).1 = ((applySeq d s).updateCore id q).2 ∧
     ((applySeq d s).updateCore id q).2 = ((applySeq d s).updateCore id q).1.root) := by
  obtain ⟨hinv, hd⟩ := applySeq_inv d s hs
  refine ⟨?_, anemoi_hash_many_var_spec, ?_,
    fun oc nc rr cap iid amt op nonce inv => compute_signal_hash_var_spec
      oc nc rr cap iid amt op nonce inv, ?_⟩
  · intro a b
    exact anemoi_hash_two_var_spec a b
  · intro r b v
    unfold create_smt_commitment_var create_smt_commitment
    rfl
  · exact verify_and_update_correct (applySeq d s) hinv id q
      (by rw [hd]; exact hid) hq hz

/-- Witness for the amended C2: the depth-1 tree holding item 1 with
quantity 100, updating item 1 to quantity 3; the gadget constraint holds
on the honest witness. -/
theorem C2_gadgets_refine_native_witness :
    (verify_and_update (applySeq 1 [(1, 100)]).root ((1 : ℕ) : F)
        (((applySeq 1 [(1, 100)]).get 1 : ℕ) : F) ((3 : ℕ) : F)
        ((applySeq 1 [(1, 100)]).getProofCore 1)).2 :=
  (C2_gadgets_refine_native 1 [(1, 100)] 1 3
    (by intro p hp; simp at hp; rw [hp]; decide)
    (by decide) (by decide)
    (by intro h; exact absurd h (by decide))).2.2.2.2.1

/-- The in-circuit commitment gadget computes the native commitment. -/
theorem create_smt_commitment_var_eq (r : F) (v : ℕ) (b : F) :
    create_smt_commitment_var r ((v : ℕ) : F) b = create_smt_commitment r v b := by
  unfold create_smt_commitment_var create_smt_commitment
  rfl

/-- A satisfiable exact-withdrawal instance, parametric in the capacity:
on the depth-1 tree holding item 1 with quantity 100, withdraw 100 of
item 1 (unit item volume), emptying the slot and the volume. -/
theorem withdraw_exact_sat (cap : ℕ) (hcap : cap < 2 ^ 32) :
    (StateTransitionCircuit.mkNew (applySeq 1 [(1, 100)]).root 100 0
      ((applySeq 1 [(1, 100)]).updateCore 1 0).2 0 0 1 100 0 100 OpType.Withdraw
      ((applySeq 1 [(1, 100)]).getProofCore 1) 1 0 cap 0 0).constraints := by
  obtain ⟨hinv, hd⟩ := applySeq_inv 1 [(1, 100)] (by intro p hp; simp at hp; rw [hp]; decide)
  have hget : (applySeq 1 [(1, 100)]).get 1 = 100 := rfl
  have hv := verify_and_update_correct (applySeq 1 [(1, 100)]) hinv 1 0
    (by rw [hd]; omega)
    (by rw [hget]; norm_num [bn254Order])
    (by intro h; rw [hget] at h; exact absurd h (by norm_num))
  unfold StateTransitionCircuit.constraints StateTransitionCircuit.mkNew
  dsimp only
  refine ⟨?_, ?_, ?_, ?_, ?_, ?_, ?_, ?_, ?_, ?_⟩
  · exact hv.1
  · exact hv.2.1
  · rw [if_neg (by simp [OpType.to_field])]
    norm_num
  · rw [enforce_u32_range_iff, val_cast_small 0 (by norm_num)]
    norm_num
  · rw [if_neg (by simp [OpType.to_field])]
    norm_num
  · rw [enforce_u32_range_iff, val_cast_small 0 (by norm_num)]
    norm_num
  · rw [enforce_geq_nat cap 0 hcap (by norm_num)]
    omega
  · exact (anemoi_hash_many_var_spec _).2
  · rw [create_smt_commitment_var_eq, create_smt_commitment_var_eq]
    exact (compute_signal_hash_var_spec _ _ _ cap 1 100 OpType.Withdraw 0 _).1
  · simp [OpType.to_field]

/-- C1: with the withdraw operation, any witness with old quantity 50 and
amount 100 is unsatisfiable (the field value old minus amount wraps to a
huge value that fails the 32-bit range check on the new quantity); and an
exact withdrawal with old quantity 100, amount 100 and new quantity 0,
with all other fields consistent with the accumulator states, satisfies
every constraint. -/
theorem C1_withdraw_underflow_unsat_exact_sat :
    (∀ c : StateTransitionCircuit,
      c.old_quantity = 50 → c.amount = 100 → c.op_type = OpType.Withdraw →
      ¬ c.constraints) ∧
    (∃ c : StateTransitionCircuit,
      c.old_quantity = 100 ∧ c.amount = 100 ∧ c.new_quantity = 0 ∧
      c.op_type = OpType.Withdraw ∧ c.constraints) := by
  constructor
  · intro c h50 h100 hop hcon
    unfold StateTransitionCircuit.constraints at hcon
    rw [h50, h100, hop] at hcon
    obtain ⟨-, -, h3, h4, -⟩ := hcon
    rw [if_neg (by simp [OpType.to_field])] at h3
    rw [enforce_u32_range_iff, h3] at h4
    rw [cast_sub_of_gt 50 100 (by omega) (by norm_num [bn254Order])] at h4
    rw [ZMod.val_cast_of_lt (by norm_num [bn254Order])] at h4
    exact absurd h4 (by norm_num [bn254Order])
  · exact ⟨StateTransitionCircuit.mkNew (applySeq 1 [(1, 100)]).root 100 0
      ((applySeq 1 [(1, 100)]).updateCore 1 0).2 0 0 1 100 0 100 OpType.Withdraw
      ((applySeq 1 [(1, 100)]).getProofCore 1) 1 0 100 0 0,
      rfl, rfl, rfl, rfl, withdraw_exact_sat 100 (by norm_num)⟩

/-- Witness for C1: the all-defaults circuit with old quantity 50, amount
100 and the withdraw operation violates its constraints. -/
theorem C1_withdraw_underflow_unsat_exact_sat_witness :
    ¬ (StateTransitionCircuit.mkNew 0 0 0 0 0 0 1 50 0 100 OpType.Withdraw
        ⟨[], []⟩ 1 0 0 0 0).constraints :=
  C1_withdraw_underflow_unsat_exact_sat.1
    (StateTransitionCircuit.mkNew 0 0 0 0 0 0 1 50 0 100 OpType.Withdraw
      ⟨[], []⟩ 1 0 0 0 0) rfl rfl rfl

/-- C6: enforce_geq(a, b) holds exactly when the field difference a minus b
fits in 32 bits; for integers below 2 to the 32 this is exactly b at most a;
in the transition relation a new volume exactly equal to the maximum
capacity is accepted (a full satisfiable instance exists) and a new volume
of capacity plus one violates the constraints. -/
theorem C6_enforce_geq_boundary :
    (∀ a b : F, enforce_geq a b ↔ (a - b).val < 2 ^ 32) ∧
    (∀ a b : ℕ, a < 2 ^ 32 → b < 2 ^ 32 →
      (enforce_geq ((a : ℕ) : F) ((b : ℕ) : F) ↔ b ≤ a)) ∧
    (∃ c : StateTransitionCircuit, c.new_volume = c.max_capacity ∧ c.constraints) ∧
    (∀ c : StateTransitionCircuit, c.max_capacity + 1 < 2 ^ 32 →
      c.new_volume = c.max_capacity + 1 → ¬ c.constraints) := by
  refine ⟨enforce_geq_iff_val, fun a b ha hb => enforce_geq_nat a b ha hb, ?_, ?_⟩
  · exact ⟨StateTransitionCircuit.mkNew (applySeq 1 [(1, 100)]).root 100 0
      ((applySeq 1 [(1, 100)]).updateCore 1 0).2 0 0 1 100 0 100 OpType.Withdraw
      ((applySeq 1 [(1, 100)]).getProofCore 1) 1 0 0 0 0,
      rfl, withdraw_exact_sat 0 (by norm_num)⟩
  · intro c hcap hvol hcon
    unfold StateTransitionCircuit.constraints at hcon
    obtain ⟨-, -, -, -, -, -, h7, -⟩ := hcon
    rw [hvol] at h7
    rw [enforce_geq_nat c.max_capacity (c.max_capacity + 1) (by omega) hcap] at h7
    omega

/-- Witness for C6: seven is accepted as at least five by the range-based
comparison. -/
theorem C6_enforce_geq_boundary_witness :
    enforce_geq ((7 : ℕ) : F) ((5 : ℕ) : F) :=
  (C6_enforce_geq_boundary.2.1 7 5 (by norm_num) (by norm_num)).mpr (by norm_num)
